import Mathlib

/-!
# Verification of the XML Beauty transform pipeline

A shallow embedding of `app/main.py`: the three POST endpoints
`/xml/format`, `/xml/minify` and `/xml/convert`, together with the
XML machinery they invoke (an expat-style parser, the `minidom`
pretty-printer, the `ElementTree` compact serializer and the
`xmltodict` XML-to-JSON conversion).

Python strings are modelled as Lean `String` (sequences of scalar
values); bytes as `List Nat`.  The XML fragment modelled covers
elements, attributes and character data with the five predefined
entities; DTDs, comments, processing instructions inside content,
numeric character references and non-ASCII names are outside the
modelled fragment (the parser rejects them, as `defusedxml` rejects
the dangerous ones).
-/

namespace XmlBeauty

/-! ## Character classes -/

/-- ASCII name characters accepted in element and attribute names. -/
def isNameChar (c : Char) : Bool :=
  c.isAlphanum || c = '_' || c = '-' || c = '.' || c = ':'

/-- XML whitespace. -/
def isXmlWs (c : Char) : Bool :=
  c = ' ' || c = '\t' || c = '\n' || c = '\r'

/-- Python `str.strip()` / regex `\s` whitespace (ASCII fragment). -/
def isPyWs (c : Char) : Bool :=
  c = ' ' || c = '\t' || c = '\n' || c = '\r' || c = '\x0b' || c = '\x0c'

/-- Characters the parser accepts literally inside character data:
anything that is not a C0 control, plus tab and newline.  (`<` and `&`
are handled separately; carriage returns are gone after line-end
normalization.) -/
def textCharOk (c : Char) : Bool :=
  0x20 ≤ c.toNat || c = '\t' || c = '\n'

/-- Python `str.splitlines` line-break characters (`\r\n` is handled
as a pair by the splitter itself). -/
def isLineBreak (c : Char) : Bool :=
  c = '\n' || c = '\r' || c = '\x0b' || c = '\x0c' ||
  c = '\x1c' || c = '\x1d' || c = '\x1e' ||
  c = '\x85' || c = ' ' || c = ' '

/-! ## Python string helpers -/

/-- `str.strip()` on a character list. -/
def pyStripChars (cs : List Char) : List Char :=
  ((cs.dropWhile isPyWs).reverse.dropWhile isPyWs).reverse

/-- `str.strip()`. -/
def pyStrip (s : String) : String :=
  String.mk (pyStripChars s.data)

/-- `str.splitlines` worker: accumulate the current line (reversed);
`\r\n` closes a line once, any other break character closes it, and a
terminator at the very end produces no further line. -/
def splitAux (acc : List Char) : List Char → List (List Char)
  | [] => [acc.reverse]
  | c :: r =>
    if isLineBreak c then
      if c = '\r' then
        match r with
        | [] => [acc.reverse]
        | c2 :: r2 =>
          if c2 = '\n' then
            match r2 with
            | [] => [acc.reverse]
            | c3 :: r3 => acc.reverse :: splitAux [] (c3 :: r3)
          else acc.reverse :: splitAux [] (c2 :: r2)
      else
        match r with
        | [] => [acc.reverse]
        | c2 :: r2 => acc.reverse :: splitAux [] (c2 :: r2)
    else splitAux (c :: acc) r
  termination_by structural cs => cs

/-- Python `str.splitlines`. -/
def splitlines : List Char → List (List Char)
  | [] => []
  | c :: r => splitAux [] (c :: r)

/-- `"\n".join(lines)`. -/
def joinNl : List (List Char) → List Char
  | [] => []
  | [l] => l
  | l :: ls => l ++ '\n' :: joinNl ls

/-- XML line-end normalization performed by expat: `\r\n` and bare
`\r` both become `\n`. -/
def normNl : List Char → List Char
  | [] => []
  | c :: r =>
    if c = '\r' then
      match r with
      | [] => ['\n']
      | c2 :: r2 =>
        if c2 = '\n' then '\n' :: normNl r2
        else '\n' :: normNl (c2 :: r2)
    else c :: normNl r

/-- UTF-8 encoded size of one scalar value. -/
def charUtf8Size (c : Char) : Nat :=
  if c.toNat ≤ 0x7F then 1
  else if c.toNat ≤ 0x7FF then 2
  else if c.toNat ≤ 0xFFFF then 3
  else 4

/-- UTF-8 encoded byte length of a string, `len(s.encode("utf-8"))`. -/
def utf8Len (s : String) : Nat :=
  (s.data.map charUtf8Size).sum

/-! ## The XML document model -/

/-- An XML node: an element with tag, attributes (in document order)
and children, or a character-data node (entities already decoded). -/
inductive XmlNode where
  | elem (tag : String) (attrs : List (String × String)) (children : List XmlNode)
  | text (s : String)

/-! ## Escaping

The Python libraries escape by chained `str.replace` calls; since `&`
is replaced first and the later replacements introduce no further
matches, this equals a per-character expansion, which is how it is
written here. -/

/-- `xml.etree.ElementTree._escape_cdata`: `& < >`. -/
def escEtTextChar (c : Char) : List Char :=
  if c = '&' then "&amp;".data
  else if c = '<' then "&lt;".data
  else if c = '>' then "&gt;".data
  else [c]

def escEtText (cs : List Char) : List Char :=
  cs.flatMap escEtTextChar

/-- `xml.etree.ElementTree._escape_attrib`: `& < > "` plus control
whitespace as character references. -/
def escEtAttrChar (c : Char) : List Char :=
  if c = '&' then "&amp;".data
  else if c = '<' then "&lt;".data
  else if c = '>' then "&gt;".data
  else if c = '"' then "&quot;".data
  else if c = '\r' then "&#13;".data
  else if c = '\n' then "&#10;".data
  else if c = '\t' then "&#09;".data
  else [c]

def escEtAttr (cs : List Char) : List Char :=
  cs.flatMap escEtAttrChar

/-- `xml.dom.minidom._write_data`: `& < " >` (used for both character
data and attribute values). -/
def escMdChar (c : Char) : List Char :=
  if c = '&' then "&amp;".data
  else if c = '<' then "&lt;".data
  else if c = '"' then "&quot;".data
  else if c = '>' then "&gt;".data
  else [c]

def escMd (cs : List Char) : List Char :=
  cs.flatMap escMdChar

/-! ## The ElementTree compact serializer (the minify transform) -/

/-- Attribute serialization shared by both writers:
`` key="value"`` with the given value escaping. -/
def attrsOut (esc : List Char → List Char) (attrs : List (String × String)) : List Char :=
  attrs.flatMap fun kv =>
    ' ' :: kv.1.data ++ '=' :: '"' :: esc kv.2.data ++ ['"']

mutual

/-- `ET.tostring` body (`_serialize_xml` with default
`short_empty_elements=True`): empty elements are written `<tag />`.
The namespace collection/rewriting pass (`_namespaces`, `ns0:`
prefixing of `xmlns`-declared names) is not modelled: tags and
`xmlns` attributes are re-emitted verbatim, which is faithful exactly
on the namespace-free fragment (`nsClean`). -/
def serEt : XmlNode → List Char
  | .text s => escEtText s.data
  | .elem tag attrs [] =>
    '<' :: tag.data ++ attrsOut escEtAttr attrs ++ " />".data
  | .elem tag attrs (k :: ks) =>
    '<' :: tag.data ++ attrsOut escEtAttr attrs ++ '>' ::
      serEtList (k :: ks) ++ '<' :: '/' :: tag.data ++ ['>']

def serEtList : List XmlNode → List Char
  | [] => []
  | k :: ks => serEt k ++ serEtList ks

end

/-- The full minified output string.  `ET.tostring(tree,
encoding="utf-8")` emits no XML declaration (the declaration is only
added for encodings other than UTF-8/US-ASCII/unicode), so the output
is exactly the serialized element. -/
def minifyStr (t : XmlNode) : String :=
  String.mk (serEt t)

/-! ## The minidom pretty-printer (the format transform) -/

mutual

/-- `minidom` `Element.writexml` / `Text.writexml` with `newl="\n"`.
A text node writes `indent + escaped data + newl`; an element with a
single text child keeps it inline; otherwise children go one per line
at the deeper indent. -/
def mdWrite (indent add : List Char) : XmlNode → List Char
  | .text s => escMd (indent ++ s.data ++ ['\n'])
  | .elem tag attrs [] =>
    indent ++ '<' :: tag.data ++ attrsOut escMd attrs ++ "/>\n".data
  | .elem tag attrs [.text s] =>
    indent ++ '<' :: tag.data ++ attrsOut escMd attrs ++ '>' ::
      escMd s.data ++ '<' :: '/' :: tag.data ++ '>' :: ['\n']
  | .elem tag attrs (k :: ks) =>
    indent ++ '<' :: tag.data ++ attrsOut escMd attrs ++ '>' :: '\n' ::
      mdWriteList (indent ++ add) add (k :: ks) ++
      indent ++ '<' :: '/' :: tag.data ++ '>' :: ['\n']

def mdWriteList (indent add : List Char) : List XmlNode → List Char
  | [] => []
  | k :: ks => mdWrite indent add k ++ mdWriteList indent add ks

end

/-- The declaration `minidom` `Document.writexml` emits. -/
def mdDecl : List Char :=
  "<?xml version=\"1.0\" ?>\n".data

/-- `dom.toprettyxml(indent=" " * n)`. -/
def toprettyxml (t : XmlNode) (n : Nat) : List Char :=
  mdDecl ++ mdWrite [] (List.replicate n ' ') t

/-- The pretty-print pipeline of `xml_format`: pretty-print, then drop
every blank line and rejoin with `"\n"`. -/
def prettyPipeline (t : XmlNode) (n : Nat) : String :=
  String.mk (joinNl ((splitlines (toprettyxml t n)).filter
    fun l => pyStripChars l ≠ []))

/-! ## The parser

An executable model of the expat parse shared by `defusedxml`,
`minidom`, `ElementTree` and `xmltodict` on the modelled fragment:
elements, attributes, character data with the five predefined
entities, an optional prolog of `<?...?>` declarations.  Attribute
values get XML attribute-value normalization (tab and newline become
spaces); line ends are normalized before parsing; C0 controls other
than tab/newline are rejected.

XML namespaces are outside the fragment: the model reads `xmlns`
declarations and colon-qualified names as ordinary attributes and
names, and does not reject unbound prefixes or duplicate attribute
names the real validator refuses, so its acceptance set exceeds the
program's on such inputs.  Statements that feed a parse result back
through the serializer therefore restrict themselves to the
namespace-free fragment (`nsClean` below). -/

/-- Skip XML whitespace. -/
def skipWs (cs : List Char) : List Char :=
  cs.dropWhile isXmlWs

/-- Longest prefix of name characters. -/
def spanName : List Char → List Char × List Char
  | [] => ([], [])
  | c :: r =>
    if isNameChar c then
      let p := spanName r
      (c :: p.1, p.2)
    else ([], c :: r)

/-- Parse a nonempty name. -/
def parseName (cs : List Char) : Except String (List Char × List Char) :=
  if (spanName cs).1.isEmpty then .error "not well-formed (invalid token)"
  else .ok (spanName cs)

/-- Parse one run of character data, decoding the five predefined
entities, stopping at `<` or end of input. -/
def parseText : List Char → Except String (List Char × List Char)
  | [] => .ok ([], [])
  | c :: r =>
    if c = '<' then .ok ([], c :: r)
    else if c = '&' then
      match r with
      | 'a' :: 'm' :: 'p' :: ';' :: r2 =>
        (parseText r2).map fun p => ('&' :: p.1, p.2)
      | 'l' :: 't' :: ';' :: r2 =>
        (parseText r2).map fun p => ('<' :: p.1, p.2)
      | 'g' :: 't' :: ';' :: r2 =>
        (parseText r2).map fun p => ('>' :: p.1, p.2)
      | 'q' :: 'u' :: 'o' :: 't' :: ';' :: r2 =>
        (parseText r2).map fun p => ('"' :: p.1, p.2)
      | 'a' :: 'p' :: 'o' :: 's' :: ';' :: r2 =>
        (parseText r2).map fun p => ('\'' :: p.1, p.2)
      | _ => .error "undefined entity"
    else if textCharOk c then
      (parseText r).map fun p => (c :: p.1, p.2)
    else .error "not well-formed (invalid token)"

/-- Parse an attribute value up to the closing quote `q`, decoding
entities and normalizing tab/newline to space. -/
def parseAttrValue (q : Char) : List Char → Except String (List Char × List Char)
  | [] => .error "unclosed token"
  | c :: r =>
    if c = q then .ok ([], r)
    else if c = '<' then .error "not well-formed (invalid token)"
    else if c = '&' then
      match r with
      | 'a' :: 'm' :: 'p' :: ';' :: r2 =>
        (parseAttrValue q r2).map fun p => ('&' :: p.1, p.2)
      | 'l' :: 't' :: ';' :: r2 =>
        (parseAttrValue q r2).map fun p => ('<' :: p.1, p.2)
      | 'g' :: 't' :: ';' :: r2 =>
        (parseAttrValue q r2).map fun p => ('>' :: p.1, p.2)
      | 'q' :: 'u' :: 'o' :: 't' :: ';' :: r2 =>
        (parseAttrValue q r2).map fun p => ('"' :: p.1, p.2)
      | 'a' :: 'p' :: 'o' :: 's' :: ';' :: r2 =>
        (parseAttrValue q r2).map fun p => ('\'' :: p.1, p.2)
      | _ => .error "undefined entity"
    else if c = '\t' ∨ c = '\n' then
      (parseAttrValue q r).map fun p => (' ' :: p.1, p.2)
    else if 0x20 ≤ c.toNat then
      (parseAttrValue q r).map fun p => (c :: p.1, p.2)
    else .error "not well-formed (invalid token)"

/-- Parse the attribute list of a start tag; stops (after skipping
whitespace) at `/` or `>`. -/
def parseAttrList : Nat → List Char → Except String (List (String × String) × List Char)
  | 0, _ => .error "not well-formed (invalid token)"
  | fuel + 1, cs =>
    match skipWs cs with
    | [] => .error "unclosed token"
    | c :: cs1 =>
      if c = '/' ∨ c = '>' then .ok ([], c :: cs1)
      else
        match parseName (c :: cs1) with
        | .error e => .error e
        | .ok (nm, cs2) =>
          match skipWs cs2 with
          | [] => .error "not well-formed (invalid token)"
          | c2 :: cs3 =>
            if c2 = '=' then
              match skipWs cs3 with
              | [] => .error "not well-formed (invalid token)"
              | q :: cs4 =>
                if q = '"' ∨ q = '\'' then
                  match parseAttrValue q cs4 with
                  | .error e => .error e
                  | .ok (v, cs5) =>
                    (parseAttrList fuel cs5).map fun p =>
                      ((String.mk nm, String.mk v) :: p.1, p.2)
                else .error "not well-formed (invalid token)"
            else .error "not well-formed (invalid token)"

mutual

/-- Parse one element, which must start at the head of the input. -/
def parseElem : Nat → List Char → Except String (XmlNode × List Char)
  | 0, _ => .error "document too deeply nested"
  | _ + 1, [] => .error "not well-formed (invalid token)"
  | fuel + 1, c :: cs1 =>
    if c = '<' then
      match parseName cs1 with
      | .error e => .error e
      | .ok (nm, cs2) =>
        match parseAttrList (cs2.length + 1) cs2 with
        | .error e => .error e
        | .ok (attrs, cs3) =>
          match cs3 with
          | [] => .error "unclosed token"
          | c3 :: cs4 =>
            if c3 = '/' then
              match cs4 with
              | [] => .error "unclosed token"
              | c4 :: cs5 =>
                if c4 = '>' then .ok (.elem (String.mk nm) attrs [], cs5)
                else .error "not well-formed (invalid token)"
            else if c3 = '>' then
              match parseContent fuel cs4 with
              | .error e => .error e
              | .ok (kids, cs5) =>
                match cs5 with
                | [] => .error "no element found"
                | c5 :: cs6 =>
                  if c5 = '<' then
                    match cs6 with
                    | [] => .error "no element found"
                    | c6 :: cs7 =>
                      if c6 = '/' then
                        match parseName cs7 with
                        | .error e => .error e
                        | .ok (nm2, cs8) =>
                          match skipWs cs8 with
                          | [] => .error "unclosed token"
                          | c8 :: cs9 =>
                            if c8 = '>' then
                              if nm2 = nm then
                                .ok (.elem (String.mk nm) attrs kids, cs9)
                              else .error "mismatched tag"
                            else .error "not well-formed (invalid token)"
                      else .error "no element found"
                  else .error "no element found"
            else .error "not well-formed (invalid token)"
    else .error "not well-formed (invalid token)"

/-- Parse element content: a sequence of character-data runs and child
elements, stopping at `</` or end of input. -/
def parseContent : Nat → List Char → Except String (List XmlNode × List Char)
  | 0, _ => .error "document too deeply nested"
  | _ + 1, [] => .ok ([], [])
  | fuel + 1, c :: r =>
    if c = '<' then
      if r.head? = some '/' then .ok ([], c :: r)
      else
        match parseElem fuel (c :: r) with
        | .error e => .error e
        | .ok (e, cs2) =>
          match parseContent fuel cs2 with
          | .error e2 => .error e2
          | .ok (ks, cs3) => .ok (e :: ks, cs3)
    else
      match parseText (c :: r) with
      | .error e => .error e
      | .ok (txt, cs2) =>
        match parseContent fuel cs2 with
        | .error e2 => .error e2
        | .ok (ks, cs3) => .ok (.text (String.mk txt) :: ks, cs3)

end

/-- Scan past `?>`. -/
def dropPast : List Char → Option (List Char)
  | [] => none
  | c :: r =>
    if c = '?' then
      match r with
      | [] => none
      | c2 :: r2 => if c2 = '>' then some r2 else dropPast (c2 :: r2)
    else dropPast r

/-- Skip prolog `<?...?>` declarations and surrounding whitespace. -/
def skipProlog : Nat → List Char → List Char
  | 0, cs => cs
  | _ + 1, [] => []
  | _ + 1, [c] => [c]
  | fuel + 1, c1 :: c2 :: r =>
    if c1 = '<' ∧ c2 = '?' then
      match dropPast r with
      | some r2 => skipProlog fuel (skipWs r2)
      | none => c1 :: c2 :: r
    else c1 :: c2 :: r

/-- The whole-document parse: line-end normalization, prolog, one
element, optional trailing whitespace. -/
def parseXml (s : String) : Except String XmlNode :=
  let cs := normNl s.data
  let cs1 := skipProlog cs.length (skipWs cs)
  match parseElem (cs1.length + 1) cs1 with
  | .error m => .error m
  | .ok (t, rest) =>
    if skipWs rest = [] then .ok t
    else .error "junk after document element"

/-! ## Well-formed trees

The invariants every tree produced by `parseXml` enjoys; they are
exactly what the round-trip through the compact serializer needs. -/

/-- A nonempty ASCII name. -/
def nameOk (s : String) : Bool :=
  !s.data.isEmpty && s.data.all isNameChar

/-- Character-data nodes are nonempty and contain no carriage returns
or C0 controls other than tab and newline. -/
def textOk (s : String) : Bool :=
  !s.data.isEmpty && s.data.all textCharOk

/-- Attribute values after normalization contain no character below
space. -/
def attrValOk (s : String) : Bool :=
  s.data.all fun c => 0x20 ≤ c.toNat

def attrOk (kv : String × String) : Bool :=
  nameOk kv.1 && attrValOk kv.2

def isTextNode : XmlNode → Bool
  | .text _ => true
  | .elem .. => false

/-- No two adjacent character-data children (a parse always yields
maximal runs). -/
def noAdjText : List XmlNode → Bool
  | [] => true
  | [_] => true
  | a :: b :: r => !(isTextNode a && isTextNode b) && noAdjText (b :: r)

mutual

def wfNode : XmlNode → Bool
  | .text s => textOk s
  | .elem tag attrs kids =>
    nameOk tag && attrs.all attrOk && noAdjText kids && wfKids kids

def wfKids : List XmlNode → Bool
  | [] => true
  | k :: ks => wfNode k && wfKids ks

end

mutual

/-- No literal newline in the character data anywhere in the tree:
the condition under which the compact serialization is one line. -/
def noNlNode : XmlNode → Bool
  | .text s => s.data.all fun c => !(c = '\n')
  | .elem _ _ kids => noNlKids kids

def noNlKids : List XmlNode → Bool
  | [] => true
  | k :: ks => noNlNode k && noNlKids ks

end

mutual

/-- Fuel sufficient for `parseElem` on the serialization of a node. -/
def fuelE : XmlNode → Nat
  | .text _ => 1
  | .elem _ _ kids => fuelK kids + 1

/-- Fuel sufficient for `parseContent` on a serialized child list. -/
def fuelK : List XmlNode → Nat
  | [] => 1
  | k :: ks => max (fuelE k) (fuelK ks) + 1

end

mutual

/-- The namespace-free fragment of the model: no colon-qualified
names, no `xmlns` attribute declarations, and no repeated attribute
names.  On this fragment `ElementTree` re-emits every name verbatim
and `expat` accepts exactly what the modelled parser accepts; outside
it the real pipeline applies namespace processing (`ns0:` prefix
rewriting, unbound-prefix and duplicate-attribute rejection) that the
embedding does not model. -/
def nsClean : XmlNode → Bool
  | .text _ => true
  | .elem tag attrs kids =>
    decide (':' ∉ tag.data) &&
    attrs.all (fun kv =>
      decide (':' ∉ kv.1.data) && decide (¬kv.1 = "xmlns")) &&
    decide ((attrs.map Prod.fst).Nodup) &&
    nsCleanKids kids

def nsCleanKids : List XmlNode → Bool
  | [] => true
  | k :: ks => nsClean k && nsCleanKids ks

end

/-! ## JSON values and responses -/

/-- The JSON payloads `JSONResponse` serializes. -/
inductive Json where
  | str (s : String)
  | num (n : Nat)
  | null
  | arr (xs : List Json)
  | obj (fields : List (String × Json))

/-- An HTTP response: status code and JSON body. -/
structure Response where
  status : Nat
  body : Json

def MAX_XML_BYTES : Nat := 1000000

def errResp (m : String) : Response :=
  ⟨400, .obj [("error", .str m)]⟩

def jsonOfLine : Option Nat → Json
  | some n => .num n
  | none => .null

def fileTooLargeMsg (n : Nat) : String :=
  "File too large (" ++ toString n ++ " bytes). Max " ++
    toString MAX_XML_BYTES ++ " bytes."

def textTooLargeMsg (n : Nat) : String :=
  "Text too large (" ++ toString n ++ " bytes). Max " ++
    toString MAX_XML_BYTES ++ " bytes."

/-! ## Error-line extraction

`_extract_error_line`: `re.search(r'line\s+(\d+)', msg, re.IGNORECASE)`
and `int` of the first group (which, being a digit string, never
fails).  Modelled on the ASCII fragment of `\s` and `\d`. -/

def digitsToNat (ds : List Char) : Nat :=
  ds.foldl (fun a c => a * 10 + (c.toNat - 48)) 0

/-- Attempt the pattern `line\s+(\d+)` (case-insensitively) anchored
at the head of the list; `\s+` and `\d+` are greedy, and no
backtracking can help since digits and spaces are disjoint. -/
def matchLineAt : List Char → Option Nat
  | c1 :: c2 :: c3 :: c4 :: c :: r =>
    if c1.toLower = 'l' && c2.toLower = 'i' &&
       c3.toLower = 'n' && c4.toLower = 'e' then
      if isPyWs c then
        if ((r.dropWhile isPyWs).takeWhile Char.isDigit).isEmpty then none
        else some (digitsToNat ((r.dropWhile isPyWs).takeWhile Char.isDigit))
      else none
    else none
  | _ => none

/-- Leftmost match of the pattern. -/
def searchLineNum : List Char → Option Nat
  | [] => none
  | c :: r =>
    match matchLineAt (c :: r) with
    | some n => some n
    | none => searchLineNum r

def extractErrorLine (msg : String) : Option Nat :=
  searchLineNum msg.data

/-- The error response of the validation stage. -/
def parseErrResp (m : String) : Response :=
  ⟨400, .obj [("error", .str ("XML parse error: " ++ m)),
              ("line", jsonOfLine (extractErrorLine m))]⟩

/-- An error-object body: the shape every 400 response carries — an
object whose first field is `"error"` holding a string message. -/
def isErrorShaped : Json → Bool
  | .obj (("error", .str _) :: _) => true
  | _ => false

/-! ## Byte decoding

`contents.decode("utf-8")` falling back to
`contents.decode("latin-1", errors="ignore")`.  Latin-1 maps every
byte to the scalar of the same value, so the fallback is total and
`errors="ignore"` never has anything to ignore. -/

def isContByte (b : Nat) : Bool :=
  0x80 ≤ b && b < 0xC0

/-- Strict UTF-8 decoding: rejects continuation errors, overlong
forms, surrogates and values beyond U+10FFFF, exactly as Python's
`bytes.decode("utf-8")`. -/
def utf8Decode : List Nat → Option (List Char)
  | [] => some []
  | b :: r =>
    if b < 0x80 then
      (utf8Decode r).map (Char.ofNat b :: ·)
    else if b < 0xC2 then none
    else if b < 0xE0 then
      match r with
      | c1 :: r1 =>
        if isContByte c1 then
          (utf8Decode r1).map (Char.ofNat ((b - 0xC0) * 0x40 + (c1 - 0x80)) :: ·)
        else none
      | _ => none
    else if b < 0xF0 then
      match r with
      | c1 :: c2 :: r2 =>
        if isContByte c1 && isContByte c2 then
          let v := (b - 0xE0) * 0x1000 + (c1 - 0x80) * 0x40 + (c2 - 0x80)
          if 0x800 ≤ v && ¬(0xD800 ≤ v && v < 0xE000) then
            (utf8Decode r2).map (Char.ofNat v :: ·)
          else none
        else none
      | _ => none
    else if b < 0xF5 then
      match r with
      | c1 :: c2 :: c3 :: r3 =>
        if isContByte c1 && isContByte c2 && isContByte c3 then
          let v := (b - 0xF0) * 0x40000 + (c1 - 0x80) * 0x1000 +
                   (c2 - 0x80) * 0x40 + (c3 - 0x80)
          if 0x10000 ≤ v && v < 0x110000 then
            (utf8Decode r3).map (Char.ofNat v :: ·)
          else none
        else none
      | _ => none
    else none

/-- Latin-1 decoding: each byte becomes the scalar of its value. -/
def latin1Decode (bs : List Nat) : List Char :=
  bs.map fun b => Char.ofNat (b % 256)

/-- The total decode step of input resolution. -/
def decodeBytes (bs : List Nat) : String :=
  match utf8Decode bs with
  | some cs => String.mk cs
  | none => String.mk (latin1Decode bs)

/-! ## The xmltodict conversion

`xmltodict.parse` with its defaults: attributes become `"@"`-prefixed
keys, repeated sibling tags collapse into lists in document order,
character data is concatenated, stripped, and stored as the scalar
value (childless, attributeless elements) or under `"#text"`. -/

/-- `push_data`: insert under `key`, collapsing a repeat into a list
appended in arrival order. -/
def pushData : List (String × Json) → String → Json → List (String × Json)
  | [], key, v => [(key, v)]
  | (k, w) :: rest, key, v =>
    if k = key then
      (k, match w with
          | .arr xs => .arr (xs ++ [v])
          | _ => .arr [w, v]) :: rest
    else (k, w) :: pushData rest key v

def isElemNode : XmlNode → Bool
  | .elem .. => true
  | .text _ => false

/-- Concatenation of the direct character-data children
(`cdata_separator=""`). -/
def textConcat : List XmlNode → String
  | [] => ""
  | .text s :: ks => s ++ textConcat ks
  | .elem .. :: ks => textConcat ks

mutual

/-- The value an element converts to. -/
def xtdValue : XmlNode → Json
  | .text _ => .null
  | .elem _ attrs kids =>
    let attrItems := attrs.map fun kv => ("@" ++ kv.1, Json.str kv.2)
    let item := xtdFold attrItems kids
    let cdata := pyStrip (textConcat kids)
    if attrs.isEmpty && (kids.all fun k => !isElemNode k) then
      if cdata = "" then .null else .str cdata
    else if cdata = "" then .obj item
    else .obj (item ++ [("#text", .str cdata)])

/-- Fold the element children into the item mapping, in document
order. -/
def xtdFold (item : List (String × Json)) : List XmlNode → List (String × Json)
  | [] => item
  | .text _ :: ks => xtdFold item ks
  | .elem t a c :: ks => xtdFold (pushData item t (xtdValue (.elem t a c))) ks

end

/-- `xmltodict.parse` of a whole document: the root tag is the sole
top-level key. -/
def xmltodictParse (t : XmlNode) : Json :=
  match t with
  | .elem tag _ _ => .obj [(tag, xtdValue t)]
  | .text s => .obj [("", .str s)]

/-! ## The endpoints -/

/-- The uploaded file of a multipart request. -/
structure UploadedFile where
  filename : Option String
  content : List Nat

/-- The form fields common to the three endpoints. -/
structure XmlRequest where
  xml_text : Option String
  xml_file : Option UploadedFile

/-- Ambient request-handling environment: the pieces of implicit state
a handler could consult (the clock that `datetime.utcnow()` reads, a
randomness source, and whatever state previous requests left). -/
structure Env where
  utcNow : Nat
  randomSeed : Nat
  previousRequests : List XmlRequest

/-- The demo route `/api/time`, which genuinely reads the clock. -/
def api_time (env : Env) : Response :=
  ⟨200, .obj [("utc", .str (toString env.utcNow))]⟩

/-- Input resolution, inline-text branch. -/
def resolveText (noXmlMsg : String) (req : XmlRequest) : Except Response String :=
  match req.xml_text with
  | some t =>
    if utf8Len t > MAX_XML_BYTES then
      .error (errResp (textTooLargeMsg (utf8Len t)))
    else .ok t
  | none => .error (errResp noXmlMsg)

/-- Python truthiness of `UploadFile.filename`. -/
def filenameTruthy : Option String → Bool
  | some fn => fn ≠ ""
  | none => false

/-- Input resolution: the file is used when present with a nonempty
filename (`if xml_file and xml_file.filename:`); its bytes are
size-checked, then decoded.  Otherwise inline text is used when
present, size-checked against its UTF-8 byte length. -/
def resolveInput (noXmlMsg : String) (req : XmlRequest) : Except Response String :=
  match req.xml_file with
  | some f =>
    if filenameTruthy f.filename then
      if f.content.length > MAX_XML_BYTES then
        .error (errResp (fileTooLargeMsg f.content.length))
      else .ok (decodeBytes f.content)
    else resolveText noXmlMsg req
  | none => resolveText noXmlMsg req

/-- The stages shared verbatim by the three handlers: resolve input,
strip, reject empty, validate with the safe parser, then hand the
document to the endpoint's transform. -/
def runPipeline (noXmlMsg : String) (req : XmlRequest)
    (transform : XmlNode → Response) : Response :=
  match resolveInput noXmlMsg req with
  | .error r => r
  | .ok raw =>
    let stripped := pyStrip raw
    if stripped = "" then errResp "Empty XML content."
    else
      match parseXml stripped with
      | .error m => parseErrResp m
      | .ok t => transform t

/-- `indent = int(indent_spaces) if int(indent_spaces) in (2, 3, 4)
else int(4)`. -/
def effectiveIndent (i : Int) : Int :=
  if i = 2 ∨ i = 3 ∨ i = 4 then i else 4

/-- `POST /xml/format`. -/
def xml_format (_env : Env) (req : XmlRequest) (indent_spaces : Int) : Response :=
  runPipeline "No XML provided. Paste XML or upload an .xml file." req fun t =>
    ⟨200, .obj [("pretty",
      .str (prettyPipeline t (effectiveIndent indent_spaces).toNat))]⟩

/-- `POST /xml/minify`. -/
def xml_minify (_env : Env) (req : XmlRequest) : Response :=
  runPipeline "No XML provided." req fun t =>
    ⟨200, .obj [("pretty", .str (minifyStr t))]⟩

/-- `POST /xml/convert`. -/
def xml_convert (_env : Env) (req : XmlRequest) : Response :=
  runPipeline "No XML provided." req fun t =>
    ⟨200, xmltodictParse t⟩

/-- The byte count the size check measures: the raw byte count of a
named upload, else the UTF-8 byte length of the inline text. -/
def measuredSize (req : XmlRequest) : Option Nat :=
  match req.xml_file with
  | some f =>
    if filenameTruthy f.filename then some f.content.length
    else req.xml_text.map utf8Len
  | none => req.xml_text.map utf8Len

/-- Whether the file branch of input resolution is taken. -/
def usesFileInput (req : XmlRequest) : Bool :=
  match req.xml_file with
  | some f => filenameTruthy f.filename
  | none => false

/-- The size-error response for the measured count `n`. -/
def sizeErrorResp (req : XmlRequest) (n : Nat) : Response :=
  errResp ((if usesFileInput req then fileTooLargeMsg else textTooLargeMsg) n)

/-- The pattern `line\s+(\d+)` (case-insensitive) matches at the head
of `cs` with (greedy) value `n`. -/
def LineMatchAt (cs : List Char) (n : Nat) : Prop :=
  ∃ (c1 c2 c3 c4 : Char) (sp ds rest : List Char),
    cs = c1 :: c2 :: c3 :: c4 :: (sp ++ ds ++ rest) ∧
    c1.toLower = 'l' ∧ c2.toLower = 'i' ∧ c3.toLower = 'n' ∧ c4.toLower = 'e' ∧
    sp ≠ [] ∧ (∀ c ∈ sp, isPyWs c = true) ∧
    ds ≠ [] ∧ (∀ c ∈ ds, c.isDigit = true) ∧
    (∀ c, rest.head? = some c → c.isDigit = false) ∧
    n = digitsToNat ds

/-- The leftmost match of `line\s+(\d+)` in `cs` has value `n`. -/
def FirstLineMatch (cs : List Char) (n : Nat) : Prop :=
  ∃ i, LineMatchAt (cs.drop i) n ∧ ∀ j < i, ∀ m, ¬LineMatchAt (cs.drop j) m

/-! # Lemmas -/

theorem ne_of_data_head {s t : String} (h : s.data.head? ≠ t.data.head?) :
    s ≠ t :=
  fun e => h (by rw [e])

theorem dropWhile_eq_self_of_head (p : Char → Bool) (cs : List Char)
    (h : ∀ c, cs.head? = some c → p c = false) : cs.dropWhile p = cs := by
  cases cs with
  | nil => rfl
  | cons a r => simp [List.dropWhile_cons, h a rfl]

/-- `resolveInput` success does not depend on the missing-input
message. -/
theorem resolveInput_ok_any (m1 m2 : String) (req : XmlRequest) (raw : String)
    (h : resolveInput m1 req = .ok raw) : resolveInput m2 req = .ok raw := by
  unfold resolveInput resolveText at *
  rcases req with ⟨xt, xf⟩
  rcases xf with _ | f <;> simp only at h ⊢
  · rcases xt with _ | t <;> simp only at h ⊢
    · exact absurd h (by simp)
    · split at h <;> simp_all
  · split at h <;> rename_i hf
    · split at h <;> simp_all
    · rcases xt with _ | t <;> simp only [hf] at h ⊢
      · exact absurd h (by simp)
      · split at h <;> simp_all

/-- Over the cap, resolution fails with the size error carrying the
measured count — before anything is decoded into the parse stage. -/
theorem resolveInput_over (m : String) (req : XmlRequest) (n : Nat)
    (h : measuredSize req = some n) (hn : MAX_XML_BYTES < n) :
    resolveInput m req = .error (sizeErrorResp req n) := by
  rcases req with ⟨xt, xf⟩
  rcases xf with _ | f
  · rcases xt with _ | t
    · simp [measuredSize] at h
    · have ht : utf8Len t = n := by simpa [measuredSize] using h
      subst ht
      simp [resolveInput, resolveText, sizeErrorResp, usesFileInput, hn]
  · by_cases hf : filenameTruthy f.filename = true
    · have hc : f.content.length = n := by simpa [measuredSize, hf] using h
      subst hc
      simp [resolveInput, sizeErrorResp, usesFileInput, hf, hn]
    · simp only [Bool.not_eq_true] at hf
      rcases xt with _ | t
      · simp [measuredSize, hf] at h
      · have ht : utf8Len t = n := by simpa [measuredSize, hf] using h
        subst ht
        simp [resolveInput, resolveText, sizeErrorResp, usesFileInput, hf, hn]

/-- A resolution error is the missing-input error or a size error for
an over-cap measured count. -/
theorem resolveInput_error_shape (m : String) (req : XmlRequest) (r : Response)
    (h : resolveInput m req = .error r) :
    r = errResp m ∨
      ∃ n, measuredSize req = some n ∧ MAX_XML_BYTES < n ∧ r = sizeErrorResp req n := by
  rcases req with ⟨xt, xf⟩
  rcases xf with _ | f
  · rcases xt with _ | t
    · left
      simp [resolveInput, resolveText] at h
      exact h.symm
    · by_cases ht : MAX_XML_BYTES < utf8Len t
      · right
        refine ⟨utf8Len t, by simp [measuredSize], ht, ?_⟩
        simp [resolveInput, resolveText, ht, sizeErrorResp, usesFileInput] at h ⊢
        exact h.symm
      · simp [resolveInput, resolveText, ht] at h
  · by_cases hf : filenameTruthy f.filename = true
    · by_cases hc : MAX_XML_BYTES < f.content.length
      · right
        refine ⟨f.content.length, by simp [measuredSize, hf], hc, ?_⟩
        simp [resolveInput, hf, hc, sizeErrorResp, usesFileInput] at h ⊢
        exact h.symm
      · simp [resolveInput, hf, hc] at h
    · simp only [Bool.not_eq_true] at hf
      rcases xt with _ | t
      · left
        simp [resolveInput, resolveText, hf] at h
        exact h.symm
      · by_cases ht : MAX_XML_BYTES < utf8Len t
        · right
          refine ⟨utf8Len t, by simp [measuredSize, hf], ht, ?_⟩
          simp [resolveInput, resolveText, hf, ht, sizeErrorResp, usesFileInput] at h ⊢
          exact h.symm
        · simp [resolveInput, resolveText, hf, ht] at h

/-- Exhaustive shape of a pipeline response. -/
theorem runPipeline_cases (m : String) (req : XmlRequest)
    (tr : XmlNode → Response) :
    (∃ r, resolveInput m req = .error r ∧ runPipeline m req tr = r) ∨
    (∃ raw, resolveInput m req = .ok raw ∧
      (runPipeline m req tr = errResp "Empty XML content." ∨
       (∃ e, parseXml (pyStrip raw) = .error e ∧
         runPipeline m req tr = parseErrResp e) ∨
       (∃ t, parseXml (pyStrip raw) = .ok t ∧
         runPipeline m req tr = tr t))) := by
  unfold runPipeline
  rcases hres : resolveInput m req with r | raw
  · exact .inl ⟨r, rfl, rfl⟩
  · refine .inr ⟨raw, rfl, ?_⟩
    by_cases he : pyStrip raw = ""
    · simp [he]
    · rcases hp : parseXml (pyStrip raw) with e | t
      · exact .inr (.inl ⟨e, rfl, by simp [he, hp]⟩)
      · exact .inr (.inr ⟨t, rfl, by simp [he, hp]⟩)

theorem errResp_inj {m1 m2 : String} (h : errResp m1 = errResp m2) : m1 = m2 := by
  simpa [errResp] using h

theorem fileMsg_head (n : Nat) : (fileTooLargeMsg n).data.head? = some 'F' := rfl

theorem textMsg_head (n : Nat) : (textTooLargeMsg n).data.head? = some 'T' := rfl

/-- No response produced other than by the size check has a size-error
shape. -/
theorem not_size_shaped (m : String) (req : XmlRequest) (tr : XmlNode → Response)
    (hm : m.data.head? = some 'N')
    (htr : ∀ t, (tr t).status = 200)
    (hno : ¬∃ n, measuredSize req = some n ∧ MAX_XML_BYTES < n) (k : Nat) :
    runPipeline m req tr ≠ errResp (fileTooLargeMsg k) ∧
    runPipeline m req tr ≠ errResp (textTooLargeMsg k) := by
  have hshape : ∀ msg : String, msg.data.head? = some 'F' ∨ msg.data.head? = some 'T' →
      runPipeline m req tr ≠ errResp msg := by
    intro msg hmsg heq
    rcases runPipeline_cases m req tr with ⟨r, hr, hrun⟩ | ⟨raw, hraw, hcase⟩
    · rcases resolveInput_error_shape m req r hr with h1 | ⟨n, hn, hlt, h2⟩
      · rw [hrun, h1] at heq
        have := errResp_inj heq
        rw [this] at hm
        rcases hmsg with h | h <;> simp [h] at hm
      · exact hno ⟨n, hn, hlt⟩
    · rcases hcase with h1 | ⟨e, hp, h2⟩ | ⟨t, hp, h3⟩
      · rw [h1] at heq
        have := errResp_inj heq
        rw [← this] at hmsg
        rcases hmsg with h | h <;> exact absurd h (by decide)
      · rw [h2] at heq
        have : (parseErrResp e).body = (errResp msg).body := by rw [heq]
        simp [parseErrResp, errResp] at this
      · rw [h3] at heq
        have : (tr t).status = (errResp msg).status := by rw [heq]
        rw [htr t] at this
        simp [errResp] at this
  exact ⟨hshape _ (.inl (fileMsg_head k)), hshape _ (.inr (textMsg_head k))⟩

/-- C7: an input that is empty or whitespace-only after decoding is
rejected by every endpoint with "Empty XML content.", and otherwise
the string every transform processes is the stripped, nonempty input. -/
theorem claim_C7 (env : Env) (req : XmlRequest) (i : Int) (raw : String)
    (h : resolveInput "No XML provided. Paste XML or upload an .xml file." req
          = .ok raw) :
    (pyStrip raw = "" →
      xml_format env req i = errResp "Empty XML content." ∧
      xml_minify env req = errResp "Empty XML content." ∧
      xml_convert env req = errResp "Empty XML content.") ∧
    (pyStrip raw ≠ "" →
      xml_format env req i = (match parseXml (pyStrip raw) with
        | .error m => parseErrResp m
        | .ok t => ⟨200, .obj [("pretty",
            .str (prettyPipeline t (effectiveIndent i).toNat))]⟩) ∧
      xml_minify env req = (match parseXml (pyStrip raw) with
        | .error m => parseErrResp m
        | .ok t => ⟨200, .obj [("pretty", .str (minifyStr t))]⟩) ∧
      xml_convert env req = (match parseXml (pyStrip raw) with
        | .error m => parseErrResp m
        | .ok t => ⟨200, xmltodictParse t⟩)) := by
  have h2 := resolveInput_ok_any _ "No XML provided." req raw h
  constructor
  · intro he
    refine ⟨?_, ?_, ?_⟩ <;>
      simp [xml_format, xml_minify, xml_convert, runPipeline, h, h2, he]
  · intro hne
    refine ⟨?_, ?_, ?_⟩ <;>
      simp [xml_format, xml_minify, xml_convert, runPipeline, h, h2, hne]

/-- C7 witness: whitespace-only inline text is rejected by all three
endpoints. -/
theorem claim_C7_witness :
    xml_format ⟨0, 0, []⟩ ⟨some " \t\n ", none⟩ 4 = errResp "Empty XML content." ∧
    xml_minify ⟨0, 0, []⟩ ⟨some " \t\n ", none⟩ = errResp "Empty XML content." ∧
    xml_convert ⟨0, 0, []⟩ ⟨some " \t\n ", none⟩ = errResp "Empty XML content." :=
  (claim_C7 ⟨0, 0, []⟩ ⟨some " \t\n ", none⟩ 4 " \t\n " rfl).1 rfl

/-- `xtdValue` never yields a JSON array at top level (arrays arise
only from collapsing repeated keys), so `push_data` wraps a repeat
into a fresh two-element list exactly once. -/
theorem xtdValue_ne_arr (t : XmlNode) (xs : List Json) : xtdValue t ≠ .arr xs := by
  cases t with
  | text s => simp [xtdValue]
  | elem tag attrs kids =>
    unfold xtdValue
    dsimp only
    split
    · split <;> simp
    · split <;> simp

theorem pushData_same_arr (tag : String) (xs : List Json) (v : Json) :
    pushData [(tag, .arr xs)] tag v = [(tag, .arr (xs ++ [v]))] := by
  simp [pushData]

/-- Folding further same-tag element children extends the list in
document order. -/
theorem xtdFold_same_tag (tag : String) (es : List XmlNode)
    (hall : ∀ e ∈ es, ∃ a k, e = XmlNode.elem tag a k) (xs : List Json) :
    xtdFold [(tag, .arr xs)] es = [(tag, .arr (xs ++ es.map xtdValue))] := by
  induction es generalizing xs with
  | nil => simp [xtdFold]
  | cons e es ih =>
    obtain ⟨a, k, rfl⟩ := hall e (by simp)
    rw [show xtdFold [(tag, Json.arr xs)] (XmlNode.elem tag a k :: es) =
        xtdFold (pushData [(tag, .arr xs)] tag (xtdValue (.elem tag a k))) es
      from rfl]
    rw [pushData_same_arr]
    rw [ih (fun e he => hall e (by simp [he]))]
    simp

/-- No character data among element-only children. -/
theorem textConcat_all_elem (es : List XmlNode)
    (hall : ∀ e ∈ es, ∃ a k, e = XmlNode.elem tag a k) : textConcat es = "" := by
  induction es with
  | nil => rfl
  | cons e es ih =>
    obtain ⟨a, k, rfl⟩ := hall e (by simp)
    exact ih fun e he => hall e (by simp [he])

/-- Two or more same-tag sibling elements collapse into one key whose
value is the ordered list of their converted values. -/
theorem xtdValue_repeated (rt tag : String) (es : List XmlNode)
    (hlen : 2 ≤ es.length)
    (hall : ∀ e ∈ es, ∃ a k, e = XmlNode.elem tag a k) :
    xtdValue (.elem rt [] es) = .obj [(tag, .arr (es.map xtdValue))] := by
  match es, hlen with
  | e1 :: e2 :: rest, _ =>
    obtain ⟨a1, k1, rfl⟩ := hall e1 (by simp)
    obtain ⟨a2, k2, rfl⟩ := hall e2 (by simp)
    have hcd : textConcat (XmlNode.elem tag a1 k1 :: XmlNode.elem tag a2 k2 :: rest) = "" :=
      textConcat_all_elem _ hall
    have hfold : xtdFold [] (XmlNode.elem tag a1 k1 :: XmlNode.elem tag a2 k2 :: rest) =
        [(tag, .arr (xtdValue (.elem tag a1 k1) :: xtdValue (.elem tag a2 k2) ::
          rest.map xtdValue))] := by
      rw [show xtdFold ([] : List (String × Json))
            (XmlNode.elem tag a1 k1 :: XmlNode.elem tag a2 k2 :: rest) =
          xtdFold (pushData [] tag (xtdValue (.elem tag a1 k1)))
            (XmlNode.elem tag a2 k2 :: rest) from rfl]
      rw [show pushData ([] : List (String × Json)) tag (xtdValue (.elem tag a1 k1)) =
          [(tag, xtdValue (.elem tag a1 k1))] from rfl]
      rw [show xtdFold [(tag, xtdValue (.elem tag a1 k1))]
            (XmlNode.elem tag a2 k2 :: rest) =
          xtdFold (pushData [(tag, xtdValue (.elem tag a1 k1))] tag
            (xtdValue (.elem tag a2 k2))) rest from rfl]
      have hp : pushData [(tag, xtdValue (.elem tag a1 k1))] tag
          (xtdValue (.elem tag a2 k2)) =
          [(tag, .arr [xtdValue (.elem tag a1 k1), xtdValue (.elem tag a2 k2)])] := by
        simp only [pushData, if_pos rfl]
        rcases hv : xtdValue (.elem tag a1 k1) with s | n | _ | xs | fs <;>
          first
          | rfl
          | exact absurd hv (by exact xtdValue_ne_arr _ _)
      rw [hp, xtdFold_same_tag tag rest (fun e he => hall e (by simp [he]))]
      simp
    unfold xtdValue
    dsimp only
    rw [hcd, show pyStrip "" = "" from rfl]
    simp [isElemNode, hfold]

/-- C2: `/xml/convert` returns 200 with a mapping whose sole top-level
key is the root tag (no wrapper); repeated same-tag siblings collapse
into an ordered list in document order; and the documented example
yields `{"root": {"item": ["1", "2"]}}`. -/
theorem claim_C2 :
    (∀ (env : Env) (req : XmlRequest) (raw tag : String)
        (attrs : List (String × String)) (kids : List XmlNode),
      resolveInput "No XML provided." req = .ok raw →
      parseXml (pyStrip raw) = .ok (.elem tag attrs kids) →
      xml_convert env req =
        ⟨200, .obj [(tag, xtdValue (.elem tag attrs kids))]⟩) ∧
    (∀ (rt tag : String) (es : List XmlNode),
      2 ≤ es.length → (∀ e ∈ es, ∃ a k, e = XmlNode.elem tag a k) →
      xtdValue (.elem rt [] es) = .obj [(tag, .arr (es.map xtdValue))]) ∧
    (∀ env : Env,
      xml_convert env ⟨some "<root><item>1</item><item>2</item></root>", none⟩ =
        ⟨200, .obj [("root", .obj [("item", .arr [.str "1", .str "2"])])]⟩) := by
  refine ⟨?_, xtdValue_repeated, fun env => rfl⟩
  intro env req raw tag attrs kids hres hparse
  have hne : pyStrip raw ≠ "" := by
    intro he
    rw [he, show parseXml "" = Except.error "not well-formed (invalid token)"
      from rfl] at hparse
    exact Except.noConfusion hparse
  simp [xml_convert, runPipeline, hres, hne, hparse, xmltodictParse]

/-- C2 witness: the documented example, both through the endpoint and
through the list-collapsing lemma at the parsed children. -/
theorem claim_C2_witness :
    xml_convert ⟨0, 0, []⟩
        ⟨some "<root><item>1</item><item>2</item></root>", none⟩ =
      ⟨200, .obj [("root", xtdValue (.elem "root" []
        [.elem "item" [] [.text "1"], .elem "item" [] [.text "2"]]))]⟩ ∧
    xtdValue (.elem "root" []
        [.elem "item" [] [.text "1"], .elem "item" [] [.text "2"]]) =
      .obj [("item", .arr [xtdValue (.elem "item" [] [.text "1"]),
        xtdValue (.elem "item" [] [.text "2"])])] := by
  constructor
  · exact claim_C2.1 ⟨0, 0, []⟩ _
      "<root><item>1</item><item>2</item></root>" "root" []
      [.elem "item" [] [.text "1"], .elem "item" [] [.text "2"]] rfl rfl
  · have := claim_C2.2.1 "root" "item"
      [.elem "item" [] [.text "1"], .elem "item" [] [.text "2"]]
      (by norm_num)
      (fun e he => by
        rcases List.mem_cons.mp he with rfl | he2
        · exact ⟨[], [.text "1"], rfl⟩
        · rcases List.mem_cons.mp he2 with rfl | he3
          · exact ⟨[], [.text "2"], rfl⟩
          · exact absurd he3 (List.not_mem_nil _))
    simpa using this

/-! ### Characterizing the `line\s+(\d+)` search -/

theorem dropWhile_head_false (p : Char → Bool) (l : List Char) :
    ∀ c, (l.dropWhile p).head? = some c → p c = false := by
  induction l with
  | nil => intro c h; simp at h
  | cons a r ih =>
    intro c h
    rw [List.dropWhile_cons] at h
    split at h
    · exact ih c h
    · simp only [List.head?_cons, Option.some.injEq] at h
      subst h
      rename_i hp
      exact Bool.not_eq_true _ ▸ by simpa using hp

theorem dropWhile_append_all (p : Char → Bool) (l1 l2 : List Char)
    (h : ∀ c ∈ l1, p c = true) :
    (l1 ++ l2).dropWhile p = l2.dropWhile p := by
  induction l1 with
  | nil => rfl
  | cons a r ih =>
    rw [List.cons_append, List.dropWhile_cons, if_pos (h a (by simp))]
    exact ih fun c hc => h c (by simp [hc])

theorem takeWhile_append_all (p : Char → Bool) (l1 l2 : List Char)
    (h : ∀ c ∈ l1, p c = true) :
    (l1 ++ l2).takeWhile p = l1 ++ l2.takeWhile p := by
  induction l1 with
  | nil => rfl
  | cons a r ih =>
    rw [List.cons_append, List.takeWhile_cons, if_pos (h a (by simp))]
    rw [ih fun c hc => h c (by simp [hc]), List.cons_append]

theorem takeWhile_nil_of_head (p : Char → Bool) (l : List Char)
    (h : ∀ c, l.head? = some c → p c = false) : l.takeWhile p = [] := by
  cases l with
  | nil => rfl
  | cons a r => rw [List.takeWhile_cons, if_neg (by simp [h a rfl])]

theorem dropWhile_eq_self_head_false (p : Char → Bool) (l : List Char)
    (h : ∀ c, l.head? = some c → p c = false) : l.dropWhile p = l :=
  dropWhile_eq_self_of_head p l h

theorem isDigit_not_pyWs (c : Char) (h : c.isDigit = true) : isPyWs c = false := by
  simp only [isPyWs, Bool.or_eq_false_iff, decide_eq_false_iff_not]
  refine ⟨⟨⟨⟨⟨?_, ?_⟩, ?_⟩, ?_⟩, ?_⟩, ?_⟩ <;> (rintro rfl; simp [Char.isDigit] at h)

theorem matchLineAt_cons (c1 c2 c3 c4 c : Char) (r : List Char) :
    matchLineAt (c1 :: c2 :: c3 :: c4 :: c :: r) =
      if c1.toLower = 'l' && c2.toLower = 'i' &&
         c3.toLower = 'n' && c4.toLower = 'e' then
        if isPyWs c then
          if ((r.dropWhile isPyWs).takeWhile Char.isDigit).isEmpty then none
          else some (digitsToNat ((r.dropWhile isPyWs).takeWhile Char.isDigit))
        else none
      else none := rfl

theorem matchLineAt_iff (cs : List Char) (n : Nat) :
    matchLineAt cs = some n ↔ LineMatchAt cs n := by
  constructor
  · intro h
    match cs with
    | [] => exact absurd h (by simp [matchLineAt])
    | [c1] => exact absurd h (by simp [matchLineAt])
    | [c1, c2] => exact absurd h (by simp [matchLineAt])
    | [c1, c2, c3] => exact absurd h (by simp [matchLineAt])
    | [c1, c2, c3, c4] => exact absurd h (by simp [matchLineAt])
    | c1 :: c2 :: c3 :: c4 :: c :: r =>
      rw [matchLineAt_cons] at h
      split at h <;> rename_i hlow
      · split at h <;> rename_i hws
        · split at h <;> rename_i hds
          · exact absurd h (by simp)
          · simp only [Option.some.injEq] at h
            simp only [Bool.and_eq_true, decide_eq_true_eq] at hlow
            refine ⟨c1, c2, c3, c4, c :: r.takeWhile isPyWs,
              (r.dropWhile isPyWs).takeWhile Char.isDigit,
              (r.dropWhile isPyWs).dropWhile Char.isDigit,
              ?_, hlow.1.1.1, hlow.1.1.2, hlow.1.2, hlow.2, by simp,
              ?_, ?_, ?_, ?_, h.symm⟩
            · simp only [List.cons_append]
              rw [List.append_assoc, List.takeWhile_append_dropWhile,
                List.takeWhile_append_dropWhile]
            · intro d hd
              rcases List.mem_cons.mp hd with rfl | hd2
              · exact hws
              · exact List.mem_takeWhile_imp hd2
            · simpa using hds
            · intro d hd
              exact List.mem_takeWhile_imp hd
            · exact dropWhile_head_false _ _
        · exact absurd h (by simp)
      · exact absurd h (by simp)
  · rintro ⟨c1, c2, c3, c4, sp, ds, rest, rfl, h1, h2, h3, h4,
      hspne, hsp, hdsne, hds, hrest, rfl⟩
    match sp, hspne with
    | s0 :: sp1, _ =>
      have hshape : c1 :: c2 :: c3 :: c4 :: ((s0 :: sp1) ++ ds ++ rest) =
          c1 :: c2 :: c3 :: c4 :: s0 :: (sp1 ++ ds ++ rest) := by simp
      rw [hshape, matchLineAt_cons]
      rw [if_pos (by simp [h1, h2, h3, h4]),
        if_pos (hsp s0 (by simp))]
      have hdrop : (sp1 ++ ds ++ rest).dropWhile isPyWs = ds ++ rest := by
        rw [List.append_assoc, dropWhile_append_all _ _ _
          (fun c hc => hsp c (by simp [hc]))]
        match ds, hdsne, hds with
        | d0 :: ds1, _, hds =>
          apply dropWhile_eq_self_head_false
          intro c hc
          simp only [List.cons_append, List.head?_cons, Option.some.injEq] at hc
          subst hc
          exact isDigit_not_pyWs _ (hds _ (by simp))
      have htake : (ds ++ rest).takeWhile Char.isDigit = ds := by
        rw [takeWhile_append_all _ _ _ hds,
          takeWhile_nil_of_head _ _ hrest, List.append_nil]
      rw [hdrop, htake, if_neg (by simpa using hdsne)]

theorem searchLineNum_iff (cs : List Char) (n : Nat) :
    searchLineNum cs = some n ↔ FirstLineMatch cs n := by
  induction cs with
  | nil =>
    simp only [searchLineNum]
    constructor
    · intro h; exact absurd h (by simp)
    · rintro ⟨i, hi, -⟩
      rw [List.drop_nil] at hi
      obtain ⟨c1, _, _, _, _, _, _, habs, -⟩ := hi
      exact absurd habs (by simp)
  | cons a r ih =>
    constructor
    · intro h
      unfold searchLineNum at h
      rcases hm : matchLineAt (a :: r) with _ | m
      · rw [hm] at h
        obtain ⟨i, hi, hmin⟩ := ih.mp h
        refine ⟨i + 1, by simpa using hi, ?_⟩
        intro j hj m' hj2
        match j with
        | 0 =>
          rw [List.drop_zero] at hj2
          exact absurd ((matchLineAt_iff _ _).mpr hj2) (by simp [hm])
        | j' + 1 =>
          exact hmin j' (by omega) m' (by simpa using hj2)
      · rw [hm] at h
        simp only [Option.some.injEq] at h
        subst h
        exact ⟨0, by simpa using (matchLineAt_iff _ _).mp hm, by omega⟩
    · rintro ⟨i, hi, hmin⟩
      unfold searchLineNum
      match i with
      | 0 =>
        rw [List.drop_zero] at hi
        rw [(matchLineAt_iff _ _).mpr hi]
      | i' + 1 =>
        have hnone : matchLineAt (a :: r) = none := by
          rcases hm : matchLineAt (a :: r) with _ | m
          · rfl
          · exact absurd ((matchLineAt_iff _ _).mp hm)
              (by simpa using hmin 0 (by omega) m)
        rw [hnone]
        exact ih.mpr ⟨i', by simpa using hi,
          fun j hj m hj2 => hmin (j + 1) (by omega) m (by simpa using hj2)⟩

/-- C6: on a parse failure with diagnostic `e`, every endpoint returns
400 with the non-empty error `"XML parse error: " ++ e` and a `line`
field that is the value of the leftmost case-insensitive
`line\s+(\d+)` match in `e`, or null when there is none. -/
theorem claim_C6 (env : Env) (req : XmlRequest) (i : Int) (raw e : String)
    (hres : resolveInput "No XML provided. Paste XML or upload an .xml file." req
      = .ok raw)
    (hne : pyStrip raw ≠ "")
    (hparse : parseXml (pyStrip raw) = .error e) :
    xml_format env req i = parseErrResp e ∧
    xml_minify env req = parseErrResp e ∧
    xml_convert env req = parseErrResp e ∧
    ("XML parse error: " ++ e) ≠ "" ∧
    parseErrResp e = ⟨400, .obj [("error", .str ("XML parse error: " ++ e)),
      ("line", jsonOfLine (extractErrorLine e))]⟩ ∧
    (∀ n, extractErrorLine e = some n ↔ FirstLineMatch e.data n) := by
  have h2 := resolveInput_ok_any _ "No XML provided." req raw hres
  refine ⟨?_, ?_, ?_, ?_, rfl, fun n => searchLineNum_iff e.data n⟩
  · simp [xml_format, runPipeline, hres, hne, hparse]
  · simp [xml_minify, runPipeline, h2, hne, hparse]
  · simp [xml_convert, runPipeline, h2, hne, hparse]
  · apply ne_of_data_head
    intro hh
    rw [show ("XML parse error: " ++ e).data.head? = some 'X' from rfl] at hh
    exact Option.noConfusion hh

/-- C6 witness: the spec's malformed example `<a><b></a>` is rejected
by all three endpoints with the parser diagnostic and a null line. -/
theorem claim_C6_witness :
    xml_format ⟨0, 0, []⟩ ⟨some "<a><b></a>", none⟩ 4 =
      parseErrResp "mismatched tag" ∧
    xml_minify ⟨0, 0, []⟩ ⟨some "<a><b></a>", none⟩ =
      parseErrResp "mismatched tag" ∧
    xml_convert ⟨0, 0, []⟩ ⟨some "<a><b></a>", none⟩ =
      parseErrResp "mismatched tag" := by
  have h := claim_C6 ⟨0, 0, []⟩ ⟨some "<a><b></a>", none⟩ 4
    "<a><b></a>" "mismatched tag" rfl (by decide) rfl
  exact ⟨h.1, h.2.1, h.2.2.1⟩

/-! ### Splitlines lemmas -/

theorem splitAux_newline (acc r : List Char) :
    splitAux acc ('\n' :: r) = acc.reverse :: splitlines r := by
  rw [splitAux.eq_def]
  cases r <;> simp [isLineBreak, splitlines]

theorem splitAux_no_break (acc : List Char) (c : Char) (r : List Char)
    (hc : isLineBreak c = false) :
    splitAux acc (c :: r) = splitAux (c :: acc) r := by
  rw [splitAux.eq_def]
  dsimp only
  rw [if_neg (by simp [hc])]

theorem splitAux_break (acc : List Char) (c : Char) (r : List Char)
    (hc : isLineBreak c = true) (hcr : c = '\r' → r.head? ≠ some '\n') :
    splitAux acc (c :: r) = acc.reverse :: splitlines r := by
  rw [splitAux.eq_def]
  dsimp only
  rw [if_pos hc]
  by_cases hr : c = '\r'
  · rw [if_pos hr]
    cases r with
    | nil => rfl
    | cons c2 r2 =>
      dsimp only
      have hc2 : ¬(c2 = '\n') := fun he => hcr hr (by rw [he]; rfl)
      rw [if_neg hc2]
      rfl
  · rw [if_neg hr]
    cases r with
    | nil => rfl
    | cons c2 r2 => rfl

/-- Every produced line is free of line-break characters. -/
theorem mem_splitAux_no_break :
    ∀ (n : Nat) (cs : List Char), cs.length ≤ n →
    ∀ (acc : List Char), (∀ c ∈ acc, isLineBreak c = false) →
    ∀ l ∈ splitAux acc cs, ∀ c ∈ l, isLineBreak c = false := by
  intro n
  induction n with
  | zero =>
    intro cs hlen acc hacc l hl c hc
    have : cs = [] := List.length_eq_zero.mp (by omega)
    subst this
    rw [show splitAux acc [] = [acc.reverse] from rfl] at hl
    simp only [List.mem_singleton] at hl
    subst hl
    exact hacc c (List.mem_reverse.mp hc)
  | succ n ih =>
    intro cs hlen acc hacc l hl c hc
    match cs with
    | [] =>
      rw [show splitAux acc [] = [acc.reverse] from rfl] at hl
      simp only [List.mem_singleton] at hl
      subst hl
      exact hacc c (List.mem_reverse.mp hc)
    | c0 :: r =>
      by_cases hbr : isLineBreak c0 = true
      · by_cases hpair : c0 = '\r' ∧ r.head? = some '\n'
        · obtain ⟨rfl, hr⟩ := hpair
          cases r with
          | nil => simp at hr
          | cons c2 r2 =>
            have hc2 : c2 = '\n' := by simpa using hr
            subst hc2
            cases r2 with
            | nil =>
              rw [show splitAux acc ['\r', '\n'] = [acc.reverse] from rfl] at hl
              simp only [List.mem_singleton] at hl
              subst hl
              exact hacc c (List.mem_reverse.mp hc)
            | cons c3 r3 =>
              rw [show splitAux acc ('\r' :: '\n' :: c3 :: r3) =
                  acc.reverse :: splitAux [] (c3 :: r3) from rfl] at hl
              rcases List.mem_cons.mp hl with rfl | hl2
              · exact hacc c (List.mem_reverse.mp hc)
              · exact ih (c3 :: r3) (by simp at hlen ⊢; omega) [] (by simp)
                  l hl2 c hc
        · rw [splitAux_break acc c0 r hbr
            (fun h1 h2 => hpair ⟨h1, h2⟩)] at hl
          rcases List.mem_cons.mp hl with rfl | hl2
          · exact hacc c (List.mem_reverse.mp hc)
          · cases r with
            | nil =>
              rw [show splitlines [] = [] from rfl] at hl2
              simp at hl2
            | cons c2 r2 =>
              rw [show splitlines (c2 :: r2) = splitAux [] (c2 :: r2)
                from rfl] at hl2
              exact ih (c2 :: r2) (by simp at hlen ⊢; omega) [] (by simp)
                l hl2 c hc
      · rw [splitAux_no_break acc c0 r (by simpa using hbr)] at hl
        refine ih r (by simp at hlen ⊢; omega) (c0 :: acc) ?_ l hl c hc
        intro d hd
        rcases List.mem_cons.mp hd with rfl | hd2
        · simpa using hbr
        · exact hacc d hd2

theorem mem_splitlines_no_break (cs : List Char) :
    ∀ l ∈ splitlines cs, ∀ c ∈ l, isLineBreak c = false := by
  intro l hl c hc
  match cs with
  | [] => simp [splitlines] at hl
  | c0 :: r =>
    exact mem_splitAux_no_break (c0 :: r).length _ le_rfl [] (by simp)
      l hl c hc

/-- A line without break characters splits to itself. -/
theorem splitAux_all_no_break (l : List Char)
    (h : ∀ c ∈ l, isLineBreak c = false) :
    ∀ acc, splitAux acc l = [acc.reverse ++ l] := by
  induction l with
  | nil => intro acc; simp [splitAux]
  | cons c r ih =>
    intro acc
    rw [splitAux_no_break acc c r (h c (by simp))]
    rw [ih (fun d hd => h d (by simp [hd])) (c :: acc)]
    simp

/-- Rejoining with `"\n"` and re-splitting restores nonempty
break-free lines. -/
theorem splitlines_joinNl (ls : List (List Char))
    (h : ∀ l ∈ ls, l ≠ [] ∧ ∀ c ∈ l, isLineBreak c = false) :
    splitlines (joinNl ls) = ls := by
  induction ls with
  | nil => rfl
  | cons l ls ih =>
    obtain ⟨hlne, hlnb⟩ := h l (by simp)
    match ls with
    | [] =>
      rw [show joinNl [l] = l from rfl]
      match l, hlne with
      | c :: r, _ =>
        rw [show splitlines (c :: r) = splitAux [] (c :: r) from rfl,
          splitAux_all_no_break (c :: r) hlnb []]
        rfl
    | m :: ls2 =>
      rw [show joinNl (l :: m :: ls2) = l ++ '\n' :: joinNl (m :: ls2) from rfl]
      have hjoin : splitAux [] (l ++ '\n' :: joinNl (m :: ls2)) =
          l :: splitlines (joinNl (m :: ls2)) := by
        have haux : ∀ (l0 : List Char), (∀ c ∈ l0, isLineBreak c = false) →
            ∀ acc, splitAux acc (l0 ++ '\n' :: joinNl (m :: ls2)) =
              (acc.reverse ++ l0) :: splitlines (joinNl (m :: ls2)) := by
          intro l0
          induction l0 with
          | nil => intro _ acc; simpa using splitAux_newline acc _
          | cons c r ih2 =>
            intro hnb acc
            rw [List.cons_append,
              splitAux_no_break acc c _ (hnb c (by simp)),
              ih2 (fun d hd => hnb d (by simp [hd])) (c :: acc)]
            simp
        simpa using haux l hlnb []
      have hl2 : joinNl (m :: ls2) ≠ [] := by
        obtain ⟨hmne, -⟩ := h m (by simp)
        match m, hmne, ls2 with
        | c :: r, _, [] => simp [joinNl]
        | c :: r, _, m2 :: ls3 => simp [joinNl]
      match hj : joinNl (m :: ls2), hl2 with
      | c :: r, _ =>
        match l, hlne with
        | c0 :: r0, _ =>
          rw [show splitlines ((c0 :: r0) ++ '\n' :: (c :: r)) =
            splitAux [] ((c0 :: r0) ++ '\n' :: (c :: r)) from rfl]
          rw [hj] at hjoin
          rw [hjoin]
          rw [← hj, ih (fun x hx => h x (by simp [hx]))]

/-- C3: for valid XML, `/xml/format` returns 200 with a pretty string
produced by the minidom pretty-printer at the effective indent, with
every blank or whitespace-only line removed; the effective indent is
`indent_spaces` for 2, 3, 4 and silently 4 otherwise — in particular
`indent_spaces = 7` behaves identically to the default 4. -/
theorem claim_C3 (env : Env) (req : XmlRequest) (i : Int) (raw : String)
    (t : XmlNode)
    (hres : resolveInput "No XML provided. Paste XML or upload an .xml file." req
      = .ok raw)
    (hparse : parseXml (pyStrip raw) = .ok t) :
    xml_format env req i =
      ⟨200, .obj [("pretty",
        .str (prettyPipeline t (effectiveIndent i).toNat))]⟩ ∧
    (∀ l ∈ splitlines (prettyPipeline t (effectiveIndent i).toNat).data,
      pyStripChars l ≠ []) ∧
    ((i = 2 ∨ i = 3 ∨ i = 4) → effectiveIndent i = i) ∧
    (¬(i = 2 ∨ i = 3 ∨ i = 4) → effectiveIndent i = 4) ∧
    (∀ (env2 : Env) (req2 : XmlRequest),
      xml_format env2 req2 7 = xml_format env2 req2 4) := by
  have hne : pyStrip raw ≠ "" := fun he => by
    rw [he, show parseXml "" = Except.error "not well-formed (invalid token)"
      from rfl] at hparse
    exact Except.noConfusion hparse
  refine ⟨?_, ?_, ?_, ?_, fun env2 req2 => rfl⟩
  · simp [xml_format, runPipeline, hres, hne, hparse]
  · intro l hl
    have hdata : (prettyPipeline t (effectiveIndent i).toNat).data =
        joinNl ((splitlines (toprettyxml t (effectiveIndent i).toNat)).filter
          fun l => pyStripChars l ≠ []) := rfl
    rw [hdata] at hl
    have hprops : ∀ l2 ∈ (splitlines (toprettyxml t (effectiveIndent i).toNat)).filter
        (fun l => pyStripChars l ≠ []),
        l2 ≠ [] ∧ ∀ c ∈ l2, isLineBreak c = false := by
      intro l2 hl2
      have hmem := List.mem_filter.mp hl2
      have h2 : pyStripChars l2 ≠ [] := by simpa using hmem.2
      refine ⟨fun he => ?_, fun c hc => mem_splitlines_no_break _ l2 hmem.1 c hc⟩
      subst he
      exact h2 rfl
    rw [splitlines_joinNl _ hprops] at hl
    simpa using (List.mem_filter.mp hl).2
  · intro h
    simp [effectiveIndent, h]
  · intro h
    simp [effectiveIndent, h]

/-- C3 witness: a concrete request with `indent_spaces = 7` formats at
the default width 4. -/
theorem claim_C3_witness :
    xml_format ⟨0, 0, []⟩ ⟨some "<a> <b/>x</a>", none⟩ 7 =
      ⟨200, .obj [("pretty", .str (prettyPipeline
        (.elem "a" [] [.text " ", .elem "b" [] [], .text "x"])
        (effectiveIndent 7).toNat))]⟩ :=
  (claim_C3 ⟨0, 0, []⟩ ⟨some "<a> <b/>x</a>", none⟩ 7 "<a> <b/>x</a>"
    (.elem "a" [] [.text " ", .elem "b" [] [], .text "x"]) rfl rfl).1

/-! ### Parser well-formedness: every parse result satisfies `wfNode` -/

theorem except_map_ok {ε α β : Type} (f : α → β) (x : Except ε α) (b : β)
    (h : x.map f = .ok b) : ∃ a, x = .ok a ∧ f a = b := by
  cases x with
  | error e => exact absurd h (by simp [Except.map])
  | ok a => exact ⟨a, rfl, by simpa [Except.map] using h⟩

theorem spanName_props (cs : List Char) :
    (∀ c ∈ (spanName cs).1, isNameChar c = true) ∧
    (spanName cs).1 ++ (spanName cs).2 = cs := by
  induction cs with
  | nil => exact ⟨by simp [spanName], rfl⟩
  | cons c r ih =>
    by_cases h : isNameChar c
    · refine ⟨?_, ?_⟩ <;> simp only [spanName, h, if_true]
      · intro d hd
        rcases List.mem_cons.mp hd with rfl | hd2
        · exact h
        · exact ih.1 d hd2
      · simp [ih.2]
    · simp [spanName, h]

theorem parseName_ok (cs nm rest : List Char)
    (h : parseName cs = .ok (nm, rest)) :
    nm ≠ [] ∧ (∀ c ∈ nm, isNameChar c = true) ∧ nm ++ rest = cs := by
  unfold parseName at h
  split at h
  · exact absurd h (by simp)
  · rename_i hne
    simp only [Except.ok.injEq] at h
    have h1 := (spanName_props cs).1
    have h2 := (spanName_props cs).2
    rw [h] at h1 h2 hne
    exact ⟨by simpa using hne, h1, h2⟩

set_option maxHeartbeats 1000000 in
theorem parseText_props (cs : List Char) : ∀ txt rest,
    parseText cs = .ok (txt, rest) →
    (∀ c ∈ txt, textCharOk c = true) ∧
    (rest = [] ∨ rest.head? = some '<') ∧
    (cs.head? ≠ some '<' → cs ≠ [] → txt ≠ []) := by
  induction cs using parseText.induct with
  | case1 =>
    intro txt rest h
    have h2 : (Except.ok (([] : List Char), ([] : List Char))
        : Except String (List Char × List Char)) = .ok (txt, rest) := h
    simp only [Except.ok.injEq, Prod.mk.injEq] at h2
    obtain ⟨rfl, rfl⟩ := h2
    exact ⟨by simp, .inl rfl, by simp⟩
  | case2 r =>
    intro txt rest h
    rw [parseText.eq_def] at h
    dsimp only at h
    rw [if_pos rfl] at h
    simp only [Except.ok.injEq, Prod.mk.injEq] at h
    obtain ⟨rfl, rfl⟩ := h
    exact ⟨by simp, .inr rfl, by simp⟩
  | case3 r2 hne ih =>
    intro txt rest h
    rw [parseText.eq_def] at h
    dsimp only at h
    rw [if_neg hne, if_pos rfl] at h
    obtain ⟨⟨t2, rest2⟩, hok, heq⟩ := except_map_ok _ _ _ h
    simp only [Prod.mk.injEq] at heq
    obtain ⟨htxt, hrest⟩ := heq
    subst htxt hrest
    obtain ⟨ih1, ih2, -⟩ := ih t2 rest2 hok
    refine ⟨?_, ih2, by simp⟩
    intro c hc
    rcases List.mem_cons.mp hc with rfl | hc2
    · decide
    · exact ih1 c hc2
  | case4 r2 hne ih =>
    intro txt rest h
    rw [parseText.eq_def] at h
    dsimp only at h
    rw [if_neg hne, if_pos rfl] at h
    obtain ⟨⟨t2, rest2⟩, hok, heq⟩ := except_map_ok _ _ _ h
    simp only [Prod.mk.injEq] at heq
    obtain ⟨htxt, hrest⟩ := heq
    subst htxt hrest
    obtain ⟨ih1, ih2, -⟩ := ih t2 rest2 hok
    refine ⟨?_, ih2, by simp⟩
    intro c hc
    rcases List.mem_cons.mp hc with rfl | hc2
    · decide
    · exact ih1 c hc2
  | case5 r2 hne ih =>
    intro txt rest h
    rw [parseText.eq_def] at h
    dsimp only at h
    rw [if_neg hne, if_pos rfl] at h
    obtain ⟨⟨t2, rest2⟩, hok, heq⟩ := except_map_ok _ _ _ h
    simp only [Prod.mk.injEq] at heq
    obtain ⟨htxt, hrest⟩ := heq
    subst htxt hrest
    obtain ⟨ih1, ih2, -⟩ := ih t2 rest2 hok
    refine ⟨?_, ih2, by simp⟩
    intro c hc
    rcases List.mem_cons.mp hc with rfl | hc2
    · decide
    · exact ih1 c hc2
  | case6 r2 hne ih =>
    intro txt rest h
    rw [parseText.eq_def] at h
    dsimp only at h
    rw [if_neg hne, if_pos rfl] at h
    obtain ⟨⟨t2, rest2⟩, hok, heq⟩ := except_map_ok _ _ _ h
    simp only [Prod.mk.injEq] at heq
    obtain ⟨htxt, hrest⟩ := heq
    subst htxt hrest
    obtain ⟨ih1, ih2, -⟩ := ih t2 rest2 hok
    refine ⟨?_, ih2, by simp⟩
    intro c hc
    rcases List.mem_cons.mp hc with rfl | hc2
    · decide
    · exact ih1 c hc2
  | case7 r2 hne ih =>
    intro txt rest h
    rw [parseText.eq_def] at h
    dsimp only at h
    rw [if_neg hne, if_pos rfl] at h
    obtain ⟨⟨t2, rest2⟩, hok, heq⟩ := except_map_ok _ _ _ h
    simp only [Prod.mk.injEq] at heq
    obtain ⟨htxt, hrest⟩ := heq
    subst htxt hrest
    obtain ⟨ih1, ih2, -⟩ := ih t2 rest2 hok
    refine ⟨?_, ih2, by simp⟩
    intro c hc
    rcases List.mem_cons.mp hc with rfl | hc2
    · decide
    · exact ih1 c hc2
  | case8 r hpat1 hpat2 hpat3 hpat4 hpat5 hne =>
    intro txt rest h
    rw [parseText.eq_def] at h
    dsimp only at h
    rw [if_neg hne, if_pos rfl] at h
    split at h <;> simp_all
  | case9 c r hne1 hne2 hok ih =>
    intro txt rest h
    rw [parseText.eq_def] at h
    dsimp only at h
    rw [if_neg hne1, if_neg hne2, if_pos hok] at h
    obtain ⟨⟨t2, rest2⟩, hok2, heq⟩ := except_map_ok _ _ _ h
    simp only [Prod.mk.injEq] at heq
    obtain ⟨htxt, hrest⟩ := heq
    subst htxt hrest
    obtain ⟨ih1, ih2, -⟩ := ih t2 rest2 hok2
    refine ⟨?_, ih2, by simp⟩
    intro d hd
    rcases List.mem_cons.mp hd with rfl | hd2
    · exact hok
    · exact ih1 d hd2
  | case10 c r hne1 hne2 hbad =>
    intro txt rest h
    rw [parseText.eq_def] at h
    dsimp only at h
    rw [if_neg hne1, if_neg hne2, if_neg hbad] at h
    exact absurd h (by simp)

theorem parseAttrValue_props (q : Char) (cs : List Char) : ∀ v rest,
    parseAttrValue q cs = .ok (v, rest) →
    ∀ c ∈ v, 0x20 ≤ c.toNat := by
  induction cs using parseAttrValue.induct q with
  | case1 =>
    intro v rest h
    have h2 : (Except.error "unclosed token"
        : Except String (List Char × List Char)) = .ok (v, rest) := h
    exact absurd h2 (by simp)
  | case2 r =>
    intro v rest h
    rw [parseAttrValue.eq_def] at h
    dsimp only at h
    rw [if_pos rfl] at h
    simp only [Except.ok.injEq, Prod.mk.injEq] at h
    obtain ⟨rfl, rfl⟩ := h
    simp
  | case3 r h1 =>
    intro v rest h
    rw [parseAttrValue.eq_def] at h
    dsimp only at h
    rw [if_neg h1, if_pos rfl] at h
    exact absurd h (by simp)
  | case4 r2 h1 h2 ih =>
    intro v rest h
    rw [parseAttrValue.eq_def] at h
    dsimp only at h
    rw [if_neg h1, if_neg h2, if_pos rfl] at h
    obtain ⟨⟨t2, rest2⟩, hok, heq⟩ := except_map_ok _ _ _ h
    simp only [Prod.mk.injEq] at heq
    obtain ⟨hv, hrest⟩ := heq
    subst hv hrest
    intro d hd
    rcases List.mem_cons.mp hd with rfl | hd2
    · decide
    · exact ih t2 rest2 hok d hd2
  | case5 r2 h1 h2 ih =>
    intro v rest h
    rw [parseAttrValue.eq_def] at h
    dsimp only at h
    rw [if_neg h1, if_neg h2, if_pos rfl] at h
    obtain ⟨⟨t2, rest2⟩, hok, heq⟩ := except_map_ok _ _ _ h
    simp only [Prod.mk.injEq] at heq
    obtain ⟨hv, hrest⟩ := heq
    subst hv hrest
    intro d hd
    rcases List.mem_cons.mp hd with rfl | hd2
    · decide
    · exact ih t2 rest2 hok d hd2
  | case6 r2 h1 h2 ih =>
    intro v rest h
    rw [parseAttrValue.eq_def] at h
    dsimp only at h
    rw [if_neg h1, if_neg h2, if_pos rfl] at h
    obtain ⟨⟨t2, rest2⟩, hok, heq⟩ := except_map_ok _ _ _ h
    simp only [Prod.mk.injEq] at heq
    obtain ⟨hv, hrest⟩ := heq
    subst hv hrest
    intro d hd
    rcases List.mem_cons.mp hd with rfl | hd2
    · decide
    · exact ih t2 rest2 hok d hd2
  | case7 r2 h1 h2 ih =>
    intro v rest h
    rw [parseAttrValue.eq_def] at h
    dsimp only at h
    rw [if_neg h1, if_neg h2, if_pos rfl] at h
    obtain ⟨⟨t2, rest2⟩, hok, heq⟩ := except_map_ok _ _ _ h
    simp only [Prod.mk.injEq] at heq
    obtain ⟨hv, hrest⟩ := heq
    subst hv hrest
    intro d hd
    rcases List.mem_cons.mp hd with rfl | hd2
    · decide
    · exact ih t2 rest2 hok d hd2
  | case8 r2 h1 h2 ih =>
    intro v rest h
    rw [parseAttrValue.eq_def] at h
    dsimp only at h
    rw [if_neg h1, if_neg h2, if_pos rfl] at h
    obtain ⟨⟨t2, rest2⟩, hok, heq⟩ := except_map_ok _ _ _ h
    simp only [Prod.mk.injEq] at heq
    obtain ⟨hv, hrest⟩ := heq
    subst hv hrest
    intro d hd
    rcases List.mem_cons.mp hd with rfl | hd2
    · decide
    · exact ih t2 rest2 hok d hd2
  | case9 r hpat1 hpat2 hpat3 hpat4 hpat5 h6 h7 =>
    intro v rest h
    rw [parseAttrValue.eq_def] at h
    dsimp only at h
    rw [if_neg h6, if_neg h7, if_pos rfl] at h
    split at h <;> simp_all
  | case10 c r h1 h2 h3 h4 ih =>
    intro v rest h
    rw [parseAttrValue.eq_def] at h
    dsimp only at h
    rw [if_neg h1, if_neg h2, if_neg h3, if_pos h4] at h
    obtain ⟨⟨t2, rest2⟩, hok, heq⟩ := except_map_ok _ _ _ h
    simp only [Prod.mk.injEq] at heq
    obtain ⟨hv, hrest⟩ := heq
    subst hv hrest
    intro d hd
    rcases List.mem_cons.mp hd with rfl | hd2
    · decide
    · exact ih t2 rest2 hok d hd2
  | case11 c r h1 h2 h3 h4 h5 ih =>
    intro v rest h
    rw [parseAttrValue.eq_def] at h
    dsimp only at h
    rw [if_neg h1, if_neg h2, if_neg h3, if_neg h4, if_pos h5] at h
    obtain ⟨⟨t2, rest2⟩, hok, heq⟩ := except_map_ok _ _ _ h
    simp only [Prod.mk.injEq] at heq
    obtain ⟨hv, hrest⟩ := heq
    subst hv hrest
    intro d hd
    rcases List.mem_cons.mp hd with rfl | hd2
    · exact h5
    · exact ih t2 rest2 hok d hd2
  | case12 c r h1 h2 h3 h4 h5 =>
    intro v rest h
    rw [parseAttrValue.eq_def] at h
    dsimp only at h
    rw [if_neg h1, if_neg h2, if_neg h3, if_neg h4, if_neg h5] at h
    exact absurd h (by simp)

theorem parseAttrList_wf : ∀ (f : Nat) (cs : List Char)
    (attrs : List (String × String)) (rest : List Char),
    parseAttrList f cs = .ok (attrs, rest) →
    ∀ kv ∈ attrs, attrOk kv = true := by
  intro f cs
  induction f, cs using parseAttrList.induct with
  | case1 cs =>
    intro attrs rest h
    exact absurd h (by simp [parseAttrList])
  | case2 fuel cs hskip =>
    intro attrs rest h
    rw [parseAttrList.eq_def] at h
    simp [hskip] at h
  | case3 fuel cs c3 r3 hskip hor =>
    intro attrs rest h
    rw [parseAttrList.eq_def] at h
    simp only [hskip] at h
    rw [if_pos hor] at h
    simp only [Except.ok.injEq, Prod.mk.injEq] at h
    obtain ⟨h1, -⟩ := h
    intro kv hkv
    rw [← h1] at hkv
    simp at hkv
  | case4 fuel cs c3 r3 hskip hor e hname =>
    intro attrs rest h
    rw [parseAttrList.eq_def] at h
    simp [hskip, hor, hname] at h
  | case5 fuel cs c3 r3 hskip hor v cs5 hname hskip2 =>
    intro attrs rest h
    rw [parseAttrList.eq_def] at h
    simp [hskip, hor, hname, hskip2] at h
  | case6 fuel cs c3 r3 hskip hor v cs5 hname r4 hskip3 hskip2 =>
    intro attrs rest h
    rw [parseAttrList.eq_def] at h
    simp [hskip, hor, hname, hskip2, hskip3] at h
  | case7 fuel cs c3 r3 hskip hor v cs5 hname r4 q r5 hskip3 hq e hval hskip2 =>
    intro attrs rest h
    rw [parseAttrList.eq_def] at h
    simp [hskip, hor, hname, hskip2, hskip3, hq, hval] at h
  | case8 fuel cs c3 r3 hskip hor v cs5 hname r4 q r5 hskip3 hq v2 cs6 hval hskip2 ih =>
    intro attrs rest h
    rw [parseAttrList.eq_def] at h
    simp only [hskip, hname, hskip2, hskip3, hval] at h
    rw [if_neg hor] at h
    rw [if_pos hq] at h
    obtain ⟨⟨attrs2, rest2⟩, hok, heq⟩ := except_map_ok _ _ _ h
    simp only [Prod.mk.injEq] at heq
    obtain ⟨hattrs, hrest⟩ := heq
    subst hattrs hrest
    intro kv hkv
    rcases List.mem_cons.mp hkv with rfl | hkv2
    · obtain ⟨hne, hchars, -⟩ := parseName_ok _ _ _ hname
      have hv := parseAttrValue_props _ _ _ _ hval
      simp only [attrOk, nameOk, attrValOk, Bool.and_eq_true,
        List.all_eq_true, decide_eq_true_eq]
      refine ⟨⟨?_, fun c hc => by simpa using hchars c hc⟩,
        fun c hc => hv c hc⟩
      simpa using hne
    · exact ih attrs2 rest2 hok kv hkv2
  | case9 fuel cs c3 r3 hskip hor v cs5 hname r4 q r5 hskip3 hq hskip2 =>
    intro attrs rest h
    rw [parseAttrList.eq_def] at h
    simp [hskip, hor, hname, hskip2, hskip3, hq] at h
  | case10 fuel cs c3 r3 hskip hor v cs5 hname c4 r4 hskip2 hne =>
    intro attrs rest h
    rw [parseAttrList.eq_def] at h
    simp [hskip, hor, hname, hskip2, hne] at h

theorem isTextNode_false_of_elem (e : XmlNode) (h : isElemNode e = true) :
    isTextNode e = false := by
  cases e <;> simp_all [isElemNode, isTextNode]

/-- Well-formedness of every tree the recursive-descent parser
produces, proved for the element and content parsers together by fuel
induction.  The third content conjunct records that a character-data
head can only arise when the input did not start with `<`; it is what
rules out adjacent text nodes. -/
theorem parseEC_wf : ∀ (f : Nat),
    (∀ cs e rest, parseElem f cs = .ok (e, rest) →
      wfNode e = true ∧ isElemNode e = true) ∧
    (∀ cs ks rest, parseContent f cs = .ok (ks, rest) →
      wfKids ks = true ∧ noAdjText ks = true ∧
      (∀ s tl, ks = XmlNode.text s :: tl → ∃ c r0, cs = c :: r0 ∧ ¬c = '<')) := by
  intro f
  induction f with
  | zero =>
    constructor
    · intro cs e rest h
      exact absurd h (by simp [parseElem])
    · intro cs ks rest h
      exact absurd h (by simp [parseContent])
  | succ fuel ih =>
    constructor
    · -- parseElem (fuel+1)
      intro cs e rest h
      cases cs with
      | nil => exact absurd h (by rw [parseElem.eq_def]; simp)
      | cons c cs1 =>
        rw [parseElem.eq_def] at h
        dsimp only at h
        by_cases hc : c = '<'
        case neg => rw [if_neg hc] at h; exact absurd h (by simp)
        rw [if_pos hc] at h
        cases hpn : parseName cs1 with
        | error e' => simp only [hpn] at h; exact Except.noConfusion h
        | ok p =>
          obtain ⟨nm, cs2⟩ := p
          simp only [hpn] at h
          cases hal : parseAttrList (cs2.length + 1) cs2 with
          | error e' => simp only [hal] at h; exact Except.noConfusion h
          | ok p2 =>
            obtain ⟨attrs, cs3⟩ := p2
            simp only [hal] at h
            cases cs3 with
            | nil => dsimp only at h; exact Except.noConfusion h
            | cons c3 cs4 =>
              dsimp only at h
              have hnm := parseName_ok _ _ _ hpn
              have hattrs : attrs.all attrOk = true :=
                List.all_eq_true.mpr fun kv hkv =>
                  parseAttrList_wf _ _ _ _ hal kv hkv
              by_cases hc3 : c3 = '/'
              · rw [if_pos hc3] at h
                cases cs4 with
                | nil => dsimp only at h; exact Except.noConfusion h
                | cons c4 cs5 =>
                  dsimp only at h
                  by_cases hc4 : c4 = '>'
                  case neg => rw [if_neg hc4] at h; exact absurd h (by simp)
                  rw [if_pos hc4] at h
                  simp only [Except.ok.injEq, Prod.mk.injEq] at h
                  obtain ⟨rfl, rfl⟩ := h
                  refine ⟨?_, rfl⟩
                  simp only [wfNode, wfKids, noAdjText, Bool.and_eq_true]
                  refine ⟨⟨⟨?_, ?_⟩, trivial⟩, trivial⟩
                  · simp only [nameOk, Bool.and_eq_true, List.all_eq_true]
                    exact ⟨by simpa using hnm.1, fun c hcm => hnm.2.1 c hcm⟩
                  · exact hattrs
              · rw [if_neg hc3] at h
                by_cases hc3b : c3 = '>'
                case neg => rw [if_neg hc3b] at h; exact absurd h (by simp)
                rw [if_pos hc3b] at h
                cases hct : parseContent fuel cs4 with
                | error e2 => simp only [hct] at h; exact Except.noConfusion h
                | ok p3 =>
                  obtain ⟨kids, cs5⟩ := p3
                  simp only [hct] at h
                  cases cs5 with
                  | nil => dsimp only at h; exact Except.noConfusion h
                  | cons c5 cs6 =>
                    dsimp only at h
                    by_cases hc5 : c5 = '<'
                    case neg => rw [if_neg hc5] at h; exact absurd h (by simp)
                    rw [if_pos hc5] at h
                    cases cs6 with
                    | nil => dsimp only at h; exact Except.noConfusion h
                    | cons c6 cs7 =>
                      dsimp only at h
                      by_cases hc6 : c6 = '/'
                      case neg => rw [if_neg hc6] at h; exact absurd h (by simp)
                      rw [if_pos hc6] at h
                      cases hpn2 : parseName cs7 with
                      | error e3 => simp only [hpn2] at h; exact Except.noConfusion h
                      | ok p4 =>
                        obtain ⟨nm2, cs8⟩ := p4
                        simp only [hpn2] at h
                        cases hsw : skipWs cs8 with
                        | nil => simp only [hsw] at h; exact Except.noConfusion h
                        | cons c8 cs9 =>
                          simp only [hsw] at h
                          by_cases hc8 : c8 = '>'
                          case neg => rw [if_neg hc8] at h; exact absurd h (by simp)
                          rw [if_pos hc8] at h
                          by_cases hnm2 : nm2 = nm
                          case neg => rw [if_neg hnm2] at h; exact absurd h (by simp)
                          rw [if_pos hnm2] at h
                          simp only [Except.ok.injEq, Prod.mk.injEq] at h
                          obtain ⟨rfl, rfl⟩ := h
                          obtain ⟨hwk, hna, -⟩ := (ih.2) cs4 kids _ hct
                          refine ⟨?_, rfl⟩
                          simp only [wfNode, Bool.and_eq_true]
                          refine ⟨⟨⟨?_, hattrs⟩, hna⟩, hwk⟩
                          simp only [nameOk, Bool.and_eq_true, List.all_eq_true]
                          exact ⟨by simpa using hnm.1, fun c hcm => hnm.2.1 c hcm⟩
    · -- parseContent (fuel+1)
      intro cs ks rest h
      cases cs with
      | nil =>
        rw [parseContent.eq_def] at h
        dsimp only at h
        simp only [Except.ok.injEq, Prod.mk.injEq] at h
        obtain ⟨rfl, rfl⟩ := h
        exact ⟨rfl, rfl, fun s tl hcontra => by simp at hcontra⟩
      | cons c r =>
        rw [parseContent.eq_def] at h
        dsimp only at h
        by_cases hc : c = '<'
        · rw [if_pos hc] at h
          by_cases hd : r.head? = some '/'
          · rw [if_pos hd] at h
            simp only [Except.ok.injEq, Prod.mk.injEq] at h
            obtain ⟨rfl, rfl⟩ := h
            exact ⟨rfl, rfl, fun s tl hcontra => by simp at hcontra⟩
          · rw [if_neg hd] at h
            cases hel : parseElem fuel (c :: r) with
            | error e2 => simp only [hel] at h; exact Except.noConfusion h
            | ok p =>
              obtain ⟨e, cs2⟩ := p
              simp only [hel] at h
              cases hct : parseContent fuel cs2 with
              | error e2 => simp only [hct] at h; exact Except.noConfusion h
              | ok p2 =>
                obtain ⟨ks2, cs3⟩ := p2
                simp only [hct] at h
                simp only [Except.ok.injEq, Prod.mk.injEq] at h
                obtain ⟨rfl, rfl⟩ := h
                obtain ⟨hwf, helem⟩ := (ih.1) (c :: r) e cs2 hel
                obtain ⟨hwk, hna, -⟩ := (ih.2) cs2 ks2 cs3 hct
                refine ⟨?_, ?_, ?_⟩
                · simp only [wfKids, Bool.and_eq_true]
                  exact ⟨hwf, hwk⟩
                · cases ks2 with
                  | nil => simp [noAdjText]
                  | cons b r2 =>
                    simp only [noAdjText, Bool.and_eq_true]
                    refine ⟨?_, hna⟩
                    simp [isTextNode_false_of_elem e helem]
                · intro s tl hcontra
                  rw [List.cons.injEq] at hcontra
                  exact absurd hcontra.1.symm (by
                    cases e <;> simp_all [isElemNode])
        · rw [if_neg hc] at h
          cases htx : parseText (c :: r) with
          | error e2 => simp only [htx] at h; exact Except.noConfusion h
          | ok p =>
            obtain ⟨txt, cs2⟩ := p
            simp only [htx] at h
            cases hct : parseContent fuel cs2 with
            | error e2 => simp only [hct] at h; exact Except.noConfusion h
            | ok p2 =>
              obtain ⟨ks2, cs3⟩ := p2
              simp only [hct] at h
              simp only [Except.ok.injEq, Prod.mk.injEq] at h
              obtain ⟨rfl, rfl⟩ := h
              obtain ⟨hchars, hstop, hne⟩ := parseText_props (c :: r) txt cs2 htx
              obtain ⟨hwk, hna, htl⟩ := (ih.2) cs2 ks2 cs3 hct
              have htxtne : txt ≠ [] := by
                refine hne ?_ (by simp)
                simp only [List.head?_cons, ne_eq, Option.some.injEq]
                exact hc
              have hks2head : ∀ s tl, ks2 ≠ XmlNode.text s :: tl := by
                intro s tl hcontra
                obtain ⟨c0, r0, hcs2, hc0⟩ := htl s tl hcontra
                rcases hstop with hnil | hhead
                · rw [hnil] at hcs2; exact List.noConfusion hcs2
                · rw [hcs2] at hhead
                  simp only [List.head?_cons, Option.some.injEq] at hhead
                  exact hc0 hhead
              refine ⟨?_, ?_, ?_⟩
              · simp only [wfKids, wfNode, Bool.and_eq_true]
                refine ⟨?_, hwk⟩
                simp only [textOk, Bool.and_eq_true, List.all_eq_true]
                exact ⟨by simpa using htxtne, fun d hd => hchars d hd⟩
              · cases ks2 with
                | nil => simp [noAdjText]
                | cons b r2 =>
                  simp only [noAdjText, Bool.and_eq_true]
                  refine ⟨?_, hna⟩
                  cases b with
                  | text sb => exact absurd rfl (hks2head sb r2)
                  | elem tag at2 k2 => simp [isTextNode]
              · intro s tl _
                exact ⟨c, r, rfl, hc⟩

/-- Every tree `parseXml` returns is well-formed and is an element. -/
theorem parseXml_wf (s : String) (t : XmlNode) (h : parseXml s = .ok t) :
    wfNode t = true ∧ isElemNode t = true := by
  unfold parseXml at h
  simp only [] at h
  generalize hg : skipProlog (normNl s.data).length (skipWs (normNl s.data)) = cs1 at h
  cases hel : parseElem (cs1.length + 1) cs1 with
  | error m => rw [hel] at h; exact absurd h (by simp)
  | ok p =>
    obtain ⟨t2, rest⟩ := p
    rw [hel] at h
    dsimp only at h
    by_cases hws : skipWs rest = []
    · rw [if_pos hws] at h
      simp only [Except.ok.injEq] at h
      subst h
      exact (parseEC_wf (cs1.length + 1)).1 cs1 t2 rest hel
    · rw [if_neg hws] at h
      exact absurd h (by simp)

/-! ### The minify serialization adds no newlines -/

theorem isNameChar_not_nl (c : Char) (h : isNameChar c = true) : ¬c = '\n' := by
  intro hEq
  subst hEq
  exact absurd h (by decide)

theorem escEtTextChar_no_nl (c : Char) (hc : ¬c = '\n') :
    '\n' ∉ escEtTextChar c := by
  unfold escEtTextChar
  split_ifs
  · decide
  · decide
  · decide
  · simp only [List.mem_singleton]
    intro hEq
    exact hc hEq.symm

theorem escEtAttrChar_no_nl (c : Char) : '\n' ∉ escEtAttrChar c := by
  unfold escEtAttrChar
  split_ifs with h1 h2 h3 h4 h5 h6 h7
  · decide
  · decide
  · decide
  · decide
  · decide
  · decide
  · decide
  · simp only [List.mem_singleton]
    intro hEq
    exact h6 hEq.symm

theorem attrsOut_no_nl (attrs : List (String × String))
    (h : attrs.all attrOk = true) : '\n' ∉ attrsOut escEtAttr attrs := by
  intro hmem
  rw [attrsOut, List.mem_flatMap] at hmem
  obtain ⟨kv, hkv, hmem2⟩ := hmem
  have hok := List.all_eq_true.mp h kv hkv
  simp only [attrOk, nameOk, Bool.and_eq_true, Bool.not_eq_true,
    List.all_eq_true] at hok
  simp only [List.mem_cons, List.mem_append, List.mem_singleton,
    List.mem_cons] at hmem2
  rcases hmem2 with ((h1 | h2) | h3 | h4 | h5) | h6 | h7
  · exact absurd h1 (by decide)
  · exact isNameChar_not_nl _ (hok.1.2 _ h2) rfl
  · exact absurd h3 (by decide)
  · exact absurd h4 (by decide)
  · obtain ⟨c, -, hc2⟩ := List.mem_flatMap.mp h5
    exact escEtAttrChar_no_nl c hc2
  · exact absurd h6 (by decide)
  · exact absurd h7 (by simp)

theorem tag_no_nl (tag : String) (h : nameOk tag = true) :
    '\n' ∉ tag.data := fun hmem => by
  simp only [nameOk, Bool.and_eq_true, List.all_eq_true] at h
  exact isNameChar_not_nl _ (h.2 _ hmem) rfl

/-- The compact serializer emits a newline only where a character-data
node contained one. -/
theorem serEt_no_nl (t : XmlNode)
    (hw : wfNode t = true) (hn : noNlNode t = true) : '\n' ∉ serEt t := by
  refine serEt.induct
    (fun t => wfNode t = true → noNlNode t = true → '\n' ∉ serEt t)
    (fun ks => wfKids ks = true → noNlKids ks = true → '\n' ∉ serEtList ks)
    ?_ ?_ ?_ ?_ ?_ t hw hn
  · intro s hwf hnn hmem
    rw [show serEt (XmlNode.text s) = escEtText s.data from rfl,
      escEtText, List.mem_flatMap] at hmem
    obtain ⟨c, hc, hmem2⟩ := hmem
    simp only [noNlNode, List.all_eq_true] at hnn
    exact escEtTextChar_no_nl c (by simpa using hnn c hc) hmem2
  · intro tag attrs hwf hnn hmem
    simp only [wfNode, Bool.and_eq_true] at hwf
    rw [show serEt (XmlNode.elem tag attrs []) =
      '<' :: tag.data ++ attrsOut escEtAttr attrs ++ " />".data from rfl] at hmem
    simp only [List.mem_cons, List.mem_append] at hmem
    rcases hmem with ((h1 | h2) | h3) | h4 | h5 | h6 | h7
    · exact absurd h1 (by decide)
    · exact tag_no_nl tag hwf.1.1.1 h2
    · exact attrsOut_no_nl attrs hwf.1.1.2 h3
    · exact absurd h4 (by decide)
    · exact absurd h5 (by decide)
    · exact absurd h6 (by decide)
    · exact absurd h7 (by simp)
  · intro tag attrs k ks ih hwf hnn hmem
    simp only [wfNode, Bool.and_eq_true] at hwf
    simp only [noNlNode] at hnn
    rw [show serEt (XmlNode.elem tag attrs (k :: ks)) =
      '<' :: tag.data ++ attrsOut escEtAttr attrs ++ '>' ::
        serEtList (k :: ks) ++ '<' :: '/' :: tag.data ++ ['>'] from rfl] at hmem
    simp only [List.mem_cons, List.mem_append, List.mem_singleton] at hmem
    rcases hmem with ((((h1 | h2) | h3) | h4 | h5) | h6 | h7 | h8) | h9 | h10
    · exact absurd h1 (by decide)
    · exact tag_no_nl tag hwf.1.1.1 h2
    · exact attrsOut_no_nl attrs hwf.1.1.2 h3
    · exact absurd h4 (by decide)
    · exact ih hwf.2 hnn h5
    · exact absurd h6 (by decide)
    · exact absurd h7 (by decide)
    · exact tag_no_nl tag hwf.1.1.1 h8
    · exact absurd h9 (by decide)
    · exact absurd h10 (by simp)
  · intro _ _ hmem
    exact absurd hmem (by simp [serEtList])
  · intro k ks ih1 ih2 hwf hnn hmem
    simp only [wfKids, Bool.and_eq_true] at hwf
    simp only [noNlKids, Bool.and_eq_true] at hnn
    rw [show serEtList (k :: ks) = serEt k ++ serEtList ks from rfl,
      List.mem_append] at hmem
    rcases hmem with h1 | h2
    · exact ih1 hwf.1 hnn.1 h1
    · exact ih2 hwf.2 hnn.2 h2

/-- C4: for valid XML, `/xml/minify` returns 200 whose payload is
exactly the compact `ET.tostring` serialization (no declaration, no
added indentation or line breaks), and that payload is a single line —
it contains no newline — whenever the document's character data
contains none. -/
theorem claim_C4 (env : Env) (req : XmlRequest) (raw : String) (t : XmlNode)
    (hres : resolveInput "No XML provided." req = .ok raw)
    (hparse : parseXml (pyStrip raw) = .ok t) :
    xml_minify env req = ⟨200, .obj [("pretty", .str (minifyStr t))]⟩ ∧
    (minifyStr t).data = serEt t ∧
    (noNlNode t = true → '\n' ∉ (minifyStr t).data) := by
  have hne : pyStrip raw ≠ "" := fun he => by
    rw [he, show parseXml "" = Except.error "not well-formed (invalid token)"
      from rfl] at hparse
    exact Except.noConfusion hparse
  refine ⟨?_, rfl, ?_⟩
  · simp [xml_minify, runPipeline, hres, hne, hparse]
  · intro hnn
    exact serEt_no_nl t (parseXml_wf _ _ hparse).1 hnn

/-- C4 witness: a concrete document with newline-free text minifies to
a single-line payload. -/
theorem claim_C4_witness :
    xml_minify ⟨0, 0, []⟩ ⟨some "<a><b>x</b></a>", none⟩ =
      ⟨200, .obj [("pretty", .str (minifyStr
        (.elem "a" [] [.elem "b" [] [.text "x"]])))]⟩ ∧
    '\n' ∉ (minifyStr (.elem "a" [] [.elem "b" [] [.text "x"]])).data := by
  have h := claim_C4 ⟨0, 0, []⟩ ⟨some "<a><b>x</b></a>", none⟩
    "<a><b>x</b></a>" (.elem "a" [] [.elem "b" [] [.text "x"]]) rfl rfl
  exact ⟨h.1, h.2.2 rfl⟩

/-! ### The success/error dichotomy -/

theorem isErrorShaped_errResp (m : String) :
    isErrorShaped (errResp m).body = true := rfl

theorem isErrorShaped_parseErrResp (m : String) :
    isErrorShaped (parseErrResp m).body = true := rfl

/-- Every pipeline response is a 200 from the transform or a 400 whose
body is an error object. -/
theorem runPipeline_status (m : String) (req : XmlRequest)
    (tr : XmlNode → Response)
    (htr : ∀ t, (tr t).status = 200) :
    (runPipeline m req tr).status = 200 ∨
      ((runPipeline m req tr).status = 400 ∧
        isErrorShaped (runPipeline m req tr).body = true) := by
  rcases runPipeline_cases m req tr with ⟨r, hr, hrun⟩ | ⟨raw, hraw, hcase⟩
  · right
    rw [hrun]
    rcases resolveInput_error_shape m req r hr with h1 | ⟨n, -, -, h2⟩
    · subst h1
      exact ⟨rfl, isErrorShaped_errResp m⟩
    · subst h2
      exact ⟨rfl, isErrorShaped_errResp _⟩
  · rcases hcase with h1 | ⟨e, hp, h2⟩ | ⟨t, hp, h3⟩
    · right
      rw [h1]
      exact ⟨rfl, isErrorShaped_errResp _⟩
    · right
      rw [h2]
      exact ⟨rfl, isErrorShaped_parseErrResp e⟩
    · left
      rw [h3]
      exact htr t

/-- A 200 pipeline response comes from the endpoint transform. -/
theorem runPipeline_200_shape (m : String) (req : XmlRequest)
    (tr : XmlNode → Response)
    (h200 : (runPipeline m req tr).status = 200) :
    ∃ t, runPipeline m req tr = tr t := by
  rcases runPipeline_cases m req tr with ⟨r, hr, hrun⟩ | ⟨raw, hraw, hcase⟩
  · rcases resolveInput_error_shape m req r hr with h1 | ⟨n, -, -, h2⟩
    · rw [hrun, h1] at h200
      exact absurd h200 (by simp [errResp])
    · rw [hrun, h2] at h200
      exact absurd h200 (by simp [sizeErrorResp, errResp])
  · rcases hcase with h1 | ⟨e, hp, h2⟩ | ⟨t, hp, h3⟩
    · rw [h1] at h200
      exact absurd h200 (by simp [errResp])
    · rw [h2] at h200
      exact absurd h200 (by simp [parseErrResp])
    · exact ⟨t, h3⟩

/-- C9 (amended): every response of the three endpoints is either a
200 or a 400 whose body is an error object, and a 200 from
`/xml/format` or `/xml/minify` is a `{"pretty": <string>}` payload
that is never error-shaped.  The original claim's further assertion
that no 200 body whatsoever is an error object fails for
`/xml/convert`, whose 200 payload is the raw conversion mapping — see
the counterexample. -/
theorem claim_C9 (env : Env) (req : XmlRequest) (i : Int) :
    ((xml_format env req i).status = 200 ∨
      ((xml_format env req i).status = 400 ∧
        isErrorShaped (xml_format env req i).body = true)) ∧
    ((xml_minify env req).status = 200 ∨
      ((xml_minify env req).status = 400 ∧
        isErrorShaped (xml_minify env req).body = true)) ∧
    ((xml_convert env req).status = 200 ∨
      ((xml_convert env req).status = 400 ∧
        isErrorShaped (xml_convert env req).body = true)) ∧
    ((xml_format env req i).status = 200 →
      isErrorShaped (xml_format env req i).body = false) ∧
    ((xml_minify env req).status = 200 →
      isErrorShaped (xml_minify env req).body = false) := by
  refine ⟨?_, ?_, ?_, ?_, ?_⟩
  · exact runPipeline_status _ req
      (fun t => ⟨200, .obj [("pretty",
        .str (prettyPipeline t (effectiveIndent i).toNat))]⟩) (fun t => rfl)
  · exact runPipeline_status _ req
      (fun t => ⟨200, .obj [("pretty", .str (minifyStr t))]⟩) (fun t => rfl)
  · exact runPipeline_status _ req
      (fun t => ⟨200, xmltodictParse t⟩) (fun t => rfl)
  · intro hs
    obtain ⟨t, ht⟩ := runPipeline_200_shape
      "No XML provided. Paste XML or upload an .xml file." req
      (fun t => ⟨200, .obj [("pretty",
        .str (prettyPipeline t (effectiveIndent i).toNat))]⟩) hs
    have hx : xml_format env req i =
        ⟨200, .obj [("pretty",
          .str (prettyPipeline t (effectiveIndent i).toNat))]⟩ := ht
    rw [hx]
    rfl
  · intro hs
    obtain ⟨t, ht⟩ := runPipeline_200_shape "No XML provided." req
      (fun t => ⟨200, .obj [("pretty", .str (minifyStr t))]⟩) hs
    have hx : xml_minify env req =
        ⟨200, .obj [("pretty", .str (minifyStr t))]⟩ := ht
    rw [hx]
    rfl

/-- C9 counterexample: the valid document
`<error>Empty XML content.</error>` makes `/xml/convert` return HTTP
200 with a body that is an error object — byte for byte the body that
whitespace-only input gets with HTTP 400 — refuting "no HTTP 200
success body is an error object". -/
theorem claim_C9_counterexample :
    (xml_convert ⟨0, 0, []⟩
      ⟨some "<error>Empty XML content.</error>", none⟩).status = 200 ∧
    isErrorShaped (xml_convert ⟨0, 0, []⟩
      ⟨some "<error>Empty XML content.</error>", none⟩).body = true ∧
    (xml_convert ⟨0, 0, []⟩
        ⟨some "<error>Empty XML content.</error>", none⟩).body =
      (xml_convert ⟨0, 0, []⟩ ⟨some "   ", none⟩).body ∧
    (xml_convert ⟨0, 0, []⟩ ⟨some "   ", none⟩).status = 400 :=
  ⟨rfl, rfl, rfl, rfl⟩

/-! ### The compact serialization contains no carriage return and
starts with the tag opener -/

/-- C5: every endpoint returns the size error naming the measured byte
count — the file's raw byte count, else the inline text's UTF-8
length — exactly when that count exceeds 1,000,000; the check precedes
parsing (the response is fixed whatever the content parses to), and a
measured count of exactly 1,000,000 is never rejected by it. -/
theorem claim_C5 (env : Env) (req : XmlRequest) (i : Int) :
    (∀ n, measuredSize req = some n → MAX_XML_BYTES < n →
      xml_format env req i = sizeErrorResp req n ∧
      xml_minify env req = sizeErrorResp req n ∧
      xml_convert env req = sizeErrorResp req n) ∧
    (∀ n,
      (xml_format env req i = errResp (fileTooLargeMsg n) ∨
       xml_format env req i = errResp (textTooLargeMsg n) ∨
       xml_minify env req = errResp (fileTooLargeMsg n) ∨
       xml_minify env req = errResp (textTooLargeMsg n) ∨
       xml_convert env req = errResp (fileTooLargeMsg n) ∨
       xml_convert env req = errResp (textTooLargeMsg n)) →
      ∃ m, measuredSize req = some m ∧ MAX_XML_BYTES < m) ∧
    (measuredSize req = some MAX_XML_BYTES →
      ∀ n, xml_format env req i ≠ errResp (fileTooLargeMsg n) ∧
        xml_format env req i ≠ errResp (textTooLargeMsg n)) := by
  refine ⟨?_, ?_, ?_⟩
  · intro n hn hlt
    have hf := resolveInput_over
      "No XML provided. Paste XML or upload an .xml file." req n hn hlt
    have hp := resolveInput_over "No XML provided." req n hn hlt
    refine ⟨?_, ?_, ?_⟩ <;>
      simp [xml_format, xml_minify, xml_convert, runPipeline, hf, hp]
  · intro n hdisj
    by_cases hover : ∃ m, measuredSize req = some m ∧ MAX_XML_BYTES < m
    · exact hover
    · exfalso
      have hfmt := not_size_shaped
        "No XML provided. Paste XML or upload an .xml file." req
        (fun t => ⟨200, .obj [("pretty",
          .str (prettyPipeline t (effectiveIndent i).toNat))]⟩)
        rfl (fun _ => rfl) hover n
      have hmin := not_size_shaped "No XML provided." req
        (fun t => ⟨200, .obj [("pretty", .str (minifyStr t))]⟩)
        rfl (fun _ => rfl) hover n
      have hcnv := not_size_shaped "No XML provided." req
        (fun t => ⟨200, xmltodictParse t⟩)
        rfl (fun _ => rfl) hover n
      rcases hdisj with h | h | h | h | h | h
      exacts [hfmt.1 h, hfmt.2 h, hmin.1 h, hmin.2 h, hcnv.1 h, hcnv.2 h]
  · intro hexact n
    by_cases hover : ∃ m, measuredSize req = some m ∧ MAX_XML_BYTES < m
    · rcases hover with ⟨m, hm, hlt⟩
      rw [hexact] at hm
      simp only [Option.some.injEq] at hm
      omega
    · exact not_size_shaped
        "No XML provided. Paste XML or upload an .xml file." req
        (fun t => ⟨200, .obj [("pretty",
          .str (prettyPipeline t (effectiveIndent i).toNat))]⟩)
        rfl (fun _ => rfl) hover n

/-- C5 witness: inline text of 1,000,001 ASCII bytes is rejected with
the size error naming 1000001, while the check never fires at exactly
1,000,000 measured bytes. -/
theorem claim_C5_witness :
    xml_minify ⟨0, 0, []⟩
        ⟨some (String.mk (List.replicate 1000001 'x')), none⟩ =
      errResp (textTooLargeMsg 1000001) ∧
    ∀ n, xml_format ⟨0, 0, []⟩
        ⟨some (String.mk (List.replicate 1000000 'x')), none⟩ 4 ≠
      errResp (fileTooLargeMsg n) := by
  constructor
  · have hms : measuredSize ⟨some (String.mk (List.replicate 1000001 'x')), none⟩
        = some 1000001 := by
      show some (((List.replicate 1000001 'x').map charUtf8Size).sum) = some 1000001
      rw [List.map_replicate]
      have hx : charUtf8Size 'x' = 1 := rfl
      rw [hx, List.sum_replicate, smul_eq_mul, mul_one]
    have := ((claim_C5 ⟨0, 0, []⟩
      ⟨some (String.mk (List.replicate 1000001 'x')), none⟩ 4).1
      1000001 hms (by norm_num [MAX_XML_BYTES])).2.1
    rw [this]
    rfl
  · intro n
    have hms : measuredSize ⟨some (String.mk (List.replicate 1000000 'x')), none⟩
        = some MAX_XML_BYTES := by
      show some (((List.replicate 1000000 'x').map charUtf8Size).sum) = some MAX_XML_BYTES
      rw [List.map_replicate]
      have hx : charUtf8Size 'x' = 1 := rfl
      rw [hx, List.sum_replicate, smul_eq_mul, mul_one]
      rfl
    exact (((claim_C5 ⟨0, 0, []⟩
      ⟨some (String.mk (List.replicate 1000000 'x')), none⟩ 4).2.2) hms n).1

/-- C10: the three endpoint handlers are deterministic: they consult
none of the ambient environment (clock, randomness, prior-request
state), so for a fixed request any two runs — under arbitrarily
different environments — produce identical responses. -/
theorem claim_C10 (e1 e2 : Env) (req : XmlRequest) (indent_spaces : Int) :
    xml_format e1 req indent_spaces = xml_format e2 req indent_spaces ∧
    xml_minify e1 req = xml_minify e2 req ∧
    xml_convert e1 req = xml_convert e2 req :=
  ⟨rfl, rfl, rfl⟩

/-- C8: the decode step of input resolution is total: it returns the
UTF-8 decoding whenever the bytes are valid UTF-8, and otherwise falls
back to Latin-1, which maps every byte to a scalar (so `errors="ignore"`
drops nothing and the fallback always succeeds). -/
theorem claim_C8 (bs : List Nat) :
    (∀ cs, utf8Decode bs = some cs → decodeBytes bs = String.mk cs) ∧
    (utf8Decode bs = none → decodeBytes bs = String.mk (latin1Decode bs)) ∧
    (latin1Decode bs).length = bs.length := by
  refine ⟨fun cs h => ?_, fun h => ?_, ?_⟩
  · simp [decodeBytes, h]
  · simp [decodeBytes, h]
  · simp [latin1Decode]

/-- C8 witness: a byte sequence that is not valid UTF-8 (a lone
continuation-introducing byte) takes the Latin-1 path, losslessly. -/
theorem claim_C8_witness :
    decodeBytes [0xC3, 0x28] = String.mk (latin1Decode [0xC3, 0x28]) ∧
    (latin1Decode [0xC3, 0x28]).length = [0xC3, 0x28].length :=
  ⟨(claim_C8 [0xC3, 0x28]).2.1 rfl, (claim_C8 [0xC3, 0x28]).2.2⟩

end XmlBeauty

